import Mathlib

/-!
# Post-processing decoders of `AutoBackendOnnx` (src/nn/autobackend.cpp)

A shallow embedding of the decoding pipeline of the YOLOv8 ONNX backend:
candidate filtering, box decode, non-maximum suppression, clipping, the
classification decoder, the last step of the mask reconstructor and the
metadata resolver.

Conventions of the embedding.

* `float` and `double` values are rationals (`ℚ`), without NaN and
  infinities. Rounding to binary32 and binary64 is modelled (`toFloat`,
  `toDouble`) where a rounded result is compared with a threshold or a bound:
  in the overlap of `NMSBoxes` and in the intersection of float rectangles.
  Elsewhere (the box decode, the scaling of `fill_blob`) the arithmetic is
  exact; the box values of the concrete evaluations (`0.5`, `75.5`,
  `5792.75`, ...) are exactly representable and so are the results of the
  box decode on them, and confidences are only compared and copied.
* `int` values are unbounded integers (`Int`); overflow is not modelled.
* An exception (an OpenCV assertion, a `throw`) is `none` in `Option`, or an
  `Except.error` carrying the message of the `throw`.
* Reading a buffer outside its bounds yields `0`.
* The OpenCV routines the source calls (`cv::Rect_` intersection, the
  `Rect_<float>` to `Rect_<int>` conversion, `cv::minMaxLoc`,
  `cv::dnn::NMSBoxes`) are embedded after the library's implementation.
-/

namespace Yolov8

/-! ## Geometry types -/

/-- Rectangle `cv::Rect_<T>`: top-left corner and size. -/
structure Rect_ (T : Type) where
  x : T
  y : T
  width : T
  height : T
deriving DecidableEq, Repr

/-- The integer rectangle `cv::Rect`. -/
abbrev Rect := Rect_ Int

/-- The rectangle `cv::Rect_<float>`. -/
abbrev RectF := Rect_ ℚ

/-- Image size `cv::Size`. -/
structure Size where
  width : Int
  height : Int
deriving DecidableEq, Repr

/-- Record `ImageInfo`: the size of the original image. -/
structure ImageInfo where
  raw_size : Size
deriving DecidableEq, Repr

section RectOps
variable {T : Type} [LinearOrderedCommRing T]

/-- The default rectangle `Rect_<T>()`. -/
def Rect_.zero : Rect_ T := ⟨0, 0, 0, 0⟩

/-- Area `Rect_::area()`. -/
def Rect_.area (r : Rect_ T) : T := r.width * r.height

/-- Intersection `a & b` of two rectangles (`operator&=` of OpenCV): the
overlap of the two, or the default rectangle when the overlap has no area
(`if (a.width <= 0 || a.height <= 0) a = Rect()`). -/
def Rect_.inter (a b : Rect_ T) : Rect_ T :=
  let x1 := max a.x b.x
  let y1 := max a.y b.y
  let w := min (a.x + a.width) (b.x + b.width) - x1
  let h := min (a.y + a.height) (b.y + b.height) - y1
  if w ≤ 0 ∨ h ≤ 0 then Rect_.zero else ⟨x1, y1, w, h⟩

end RectOps

/-- Conversion `Rect_<int>` to `Rect_<float>` (exact). -/
def Rect.toF (r : Rect) : RectF := ⟨r.x, r.y, r.width, r.height⟩

/-- Rounding `cvRound`: to the nearest integer, ties to the even one. -/
def cvRound (v : ℚ) : Int :=
  let f := ⌊v⌋
  let d := v - f
  if d < 1 / 2 then f
  else if 1 / 2 < d then f + 1
  else if f % 2 = 0 then f else f + 1

/-- The implicit C++ conversion of a floating value to `int`: truncation
towards zero. -/
def truncInt (v : ℚ) : Int :=
  if 0 ≤ v then ⌊v⌋ else ⌈v⌉

/-- Conversion `Rect_<float>` to `Rect_<int>`: every field goes through
`saturate_cast<int>`, which is `cvRound`. -/
def RectF.toRect (r : RectF) : Rect :=
  ⟨cvRound r.x, cvRound r.y, cvRound r.width, cvRound r.height⟩

/-! ## Binary floating point -/

/-- The number of binary digits of `n`, counted with `fuel` steps of
halving: `2 ^ (len - 1) ≤ n < 2 ^ len` for `0 < n ≤ fuel`. -/
def bitLength : Nat → Nat → Nat
  | 0, _ => 0
  | fuel + 1, n => if n = 0 then 0 else bitLength fuel (n / 2) + 1

/-- The binary exponent of a positive rational `a`: the `e` with
`2 ^ e ≤ a < 2 ^ (e + 1)`. The difference of the bit lengths of numerator and
denominator is this exponent or one more. -/
def binaryExponent (a : ℚ) : Int :=
  let k : Int := (bitLength a.num.natAbs a.num.natAbs : Int) - (bitLength a.den a.den : Int)
  if (2 : ℚ) ^ k ≤ a then k else k - 1

/-- Rounding to the nearest binary floating-point number with a significand
of `p` bits, ties to the even significand. The exponent range is not
bounded: overflow and subnormal numbers are not modelled. -/
def roundToBits (p : Nat) (q : ℚ) : ℚ :=
  if q = 0 then 0
  else
    let a := |q|
    let quantum : ℚ := (2 : ℚ) ^ (binaryExponent a - ((p : Int) - 1))
    let m := cvRound (a / quantum)
    if q < 0 then -((m : ℚ) * quantum) else (m : ℚ) * quantum

/-- Rounding to `float` (binary32, 24-bit significand). -/
def toFloat (q : ℚ) : ℚ := roundToBits 24 q

/-- Rounding to `double` (binary64, 53-bit significand). -/
def toDouble (q : ℚ) : ℚ := roundToBits 53 q

/-- Intersection `a & b` of two `cv::Rect_<float>` (`operator&=` of
OpenCV): the same steps as for integer rectangles, every sum and difference
rounded to `float`. -/
def RectF.interF (a b : RectF) : RectF :=
  let x1 := max a.x b.x
  let y1 := max a.y b.y
  let w := toFloat (min (toFloat (a.x + a.width)) (toFloat (b.x + b.width)) - x1)
  let h := toFloat (min (toFloat (a.y + a.height)) (toFloat (b.y + b.height)) - y1)
  if w ≤ 0 ∨ h ≤ 0 then Rect_.zero else ⟨x1, y1, w, h⟩

/-! ## Non-maximum suppression (`cv::dnn::NMSBoxes`) -/

/-- Jaccard distance `cv::jaccardDistance` of two integer rectangles,
`1.0 - Aab / (Aa + Ab - Aab)` with `double Aab = (a & b).area()`: the
quotient and the difference are rounded to `double`. -/
def jaccardDistance (a b : Rect) : ℚ :=
  let Aa := a.area
  let Ab := b.area
  if Aa + Ab ≤ 0 then 0
  else
    let Aab : ℚ := toDouble (((a.inter b).area : Int) : ℚ)
    toDouble (1 - toDouble (Aab / toDouble (toDouble (((Aa + Ab : Int) : ℚ)) - Aab)))

/-- The Intersection-over-Union of the specification, the ratio of the area
of the intersection of two boxes to the area of their union, in exact
arithmetic; it is compared with the overlap that the code computes. -/
def exactIoU (a b : Rect) : ℚ :=
  let Aab : ℚ := (((a.inter b).area : Int) : ℚ)
  Aab / ((((a.area + b.area : Int)) : ℚ) - Aab)

/-- Overlap measure `rectOverlap` used by `NMSBoxes`,
`1.f - static_cast<float>(jaccardDistance(a, b))`: the intersection over
union as computed in floating point, the distance rounded to `float` and the
difference again. -/
def rectOverlap (a b : Rect) : ℚ := toFloat (1 - toFloat (jaccardDistance a b))

/-- Score/index pairs above the threshold, in index order (the first loop
of `GetMaxScoreIndex`, which keeps `i` when `scores[i] > threshold`). -/
def scoreIndexPairs (threshold : ℚ) : List ℚ → Nat → List (ℚ × Nat)
  | [], _ => []
  | s :: rest, i =>
    if threshold < s then (s, i) :: scoreIndexPairs threshold rest (i + 1)
    else scoreIndexPairs threshold rest (i + 1)

/-- Ordering `SortScorePairDescend` (`pair1.first > pair2.first`) as used by
`std::stable_sort`: `p` may stay in front of `q` when the score of `q` is
not greater. -/
def scoreDescend (p q : ℚ × Nat) : Prop := q.1 ≤ p.1

instance : DecidableRel scoreDescend := fun p q => inferInstanceAs (Decidable (q.1 ≤ p.1))

/-- Routine `GetMaxScoreIndex` with `top_k = 0`: the pairs above the threshold,
stably sorted by descending score (insertion sort is stable: a pair is put in
front of the first pair whose score is not greater). -/
def GetMaxScoreIndex (scores : List ℚ) (threshold : ℚ) : List (ℚ × Nat) :=
  List.insertionSort scoreDescend (scoreIndexPairs threshold scores 0)

/-- The inner loop of `NMSFast_` (`keep = overlap <= adaptive_threshold` for
every kept index): candidate `idx` is kept when its overlap with every index
kept so far is at most the threshold. -/
def nmsKeep (bboxes : List Rect) (nms_threshold : ℚ) (idx : Nat) (indices : List Nat) : Bool :=
  indices.all fun kept =>
    decide (rectOverlap (bboxes.getD idx Rect_.zero) (bboxes.getD kept Rect_.zero) ≤ nms_threshold)

/-- The outer loop of `NMSFast_` (with `eta = 1`, so the threshold never
adapts): walk the sorted pairs, appending each kept index. -/
def NMSFast_ (bboxes : List Rect) (nms_threshold : ℚ) : List (ℚ × Nat) → List Nat → List Nat
  | [], indices => indices
  | (_, idx) :: rest, indices =>
    if nmsKeep bboxes nms_threshold idx indices then
      NMSFast_ bboxes nms_threshold rest (indices ++ [idx])
    else NMSFast_ bboxes nms_threshold rest indices

/-- Routine `cv::dnn::NMSBoxes(bboxes, scores, score_threshold, nms_threshold, indices)`
with the default `eta = 1` and `top_k = 0`. The leading `CV_Assert_N` makes
the call throw (`none`) on mismatched sizes or a negative threshold. -/
def NMSBoxes (bboxes : List Rect) (scores : List ℚ) (score_threshold nms_threshold : ℚ) :
    Option (List Nat) :=
  if bboxes.length = scores.length ∧ 0 ≤ score_threshold ∧ 0 ≤ nms_threshold then
    some (NMSFast_ bboxes nms_threshold (GetMaxScoreIndex scores score_threshold) [])
  else none

/-! ## Tensors and results -/

/-- A single-channel float matrix `cv::Mat` (`CV_32F`) in row-major order. -/
structure Mat where
  rows : Nat
  cols : Nat
  data : List ℚ
deriving DecidableEq, Repr

/-- A binary mask (`cv::Mat` of type `CV_8U`); the default value is the
empty matrix. -/
structure MaskMat where
  rows : Int
  cols : Int
  data : List (List Bool)
deriving DecidableEq, Repr

/-- The empty matrix `cv::Mat()`. -/
def MaskMat.none : MaskMat := ⟨0, 0, []⟩

/-- Result record `YoloResults`, fields in the order of its brace
initialisers: class index, confidence, box, mask, keypoints. -/
structure YoloResults where
  class_idx : Int
  conf : ℚ
  bbox : RectF
  mask : MaskMat
  keypoints : List ℚ
deriving DecidableEq, Repr

/-- A default-constructed `YoloResults`. -/
def YoloResults.init : YoloResults := ⟨0, 0, Rect_.zero, MaskMat.none, []⟩

/-- Maximum search of `cv::minMaxLoc` over the remaining scores: a later
score replaces the best one only when strictly greater. -/
def maxLocAux : List ℚ → Nat → ℚ → Nat → ℚ × Nat
  | [], _, best, bestIdx => (best, bestIdx)
  | s :: rest, i, best, bestIdx =>
    if best < s then maxLocAux rest (i + 1) s i else maxLocAux rest (i + 1) best bestIdx

/-- The pair `(max_conf, class_id.x)` that `cv::minMaxLoc` yields for a
one-row score matrix: the maximum and its first position; `(0, -1)` for an
empty matrix. -/
def minMaxLoc : List ℚ → ℚ × Int
  | [] => (0, -1)
  | s :: rest => let r := maxLocAux rest 1 s 0; (r.1, (r.2 : Int))

/-- The score slots `cv::Mat scores(1, class_names_num, CV_32FC1, pdata + 4)`
of the row that starts at offset `off`. -/
def rowScores (data : List ℚ) (class_names_num off : Nat) : List ℚ :=
  (List.range class_names_num).map fun j => data.getD (off + 4 + j) 0

/-- One retained row before NMS: the entries pushed in lockstep onto
`class_ids`, `confidences`, `boxes` and `masks`. -/
structure Candidate where
  class_id : Int
  confidence : ℚ
  box : Rect
  mask : List ℚ
deriving DecidableEq, Repr

/-- The helper `scale_boxes(img1_shape, box, img0_shape)` of utils/ops.h,
which is not part of the source file: the decoders take it as a parameter. -/
abbrev ScaleBoxes := Size → RectF → Size → RectF

/-! ## Detect decoder -/

/-- Box decode of `postprocess_detects` (lines 532-540) for the row at
offset `off`: a float rectangle is built, rescaled, and rounded when it is
pushed onto the `std::vector<cv::Rect>`. -/
def detect_box (scale_boxes : ScaleBoxes) (cvSize : Size) (image_info : ImageInfo)
    (data : List ℚ) (off : Nat) : Rect :=
  let out_w := data.getD (off + 2) 0
  let out_h := data.getD (off + 3) 0
  let out_left := max (data.getD off 0 - (1 / 2) * out_w + 1 / 2) 0
  let out_top := max (data.getD (off + 1) 0 - (1 / 2) * out_h + 1 / 2) 0
  let bbox : RectF := ⟨out_left, out_top, out_w + 1 / 2, out_h + 1 / 2⟩
  let scaled_bbox := scale_boxes cvSize bbox image_info.raw_size
  scaled_bbox.toRect

/-- The row loop of `postprocess_detects` (lines 519-543): `n` rows remain,
the next one starts at offset `off`; retained rows are listed in row order. -/
def detect_rows (scale_boxes : ScaleBoxes) (cvSize : Size) (image_info : ImageInfo)
    (data : List ℚ) (class_names_num : Nat) (conf_threshold : ℚ) : Nat → Nat → List Candidate
  | 0, _ => []
  | n + 1, off =>
    let data_width := class_names_num + 4
    let mm := minMaxLoc (rowScores data class_names_num off)
    let rest := detect_rows scale_boxes cvSize image_info data class_names_num conf_threshold n
      (off + data_width)
    if conf_threshold < mm.1 then
      { class_id := mm.2, confidence := mm.1,
        box := detect_box scale_boxes cvSize image_info data off,
        mask := [] } :: rest
    else rest

/-- Clipping of a selected box to the image: `boxes[idx] & cv::Rect(0, 0, W, H)`. -/
def clipToImage (image_info : ImageInfo) (box : Rect) : Rect :=
  box.inter ⟨0, 0, image_info.raw_size.width, image_info.raw_size.height⟩

/-- The candidate at position `idx` of the parallel vectors. -/
def candAt (cands : List Candidate) (idx : Nat) : Candidate :=
  cands.getD idx ⟨0, 0, Rect_.zero, []⟩

/-- The result built for a selected index in `postprocess_detects`
(lines 550-552). -/
def detect_result (image_info : ImageInfo) (cands : List Candidate) (idx : Nat) : YoloResults :=
  let c := candAt cands idx
  { class_idx := c.class_id, conf := c.confidence,
    bbox := (clipToImage image_info c.box).toF, mask := MaskMat.none, keypoints := [] }

/-- Decoder `AutoBackendOnnx::postprocess_detects`. The incoming `output`
is cleared; the call throws (`none`) when `NMSBoxes` does. -/
def postprocess_detects (scale_boxes : ScaleBoxes) (cvSize : Size) (output0 : Mat)
    (image_info : ImageInfo) (_output : List YoloResults) (class_names_num : Nat)
    (conf_threshold iou_threshold : ℚ) : Option (List YoloResults) :=
  let cands := detect_rows scale_boxes cvSize image_info output0.data class_names_num
    conf_threshold output0.rows 0
  match NMSBoxes (cands.map (·.box)) (cands.map (·.confidence)) conf_threshold iou_threshold with
  | none => none
  | some nms_result => some (nms_result.map (detect_result image_info cands))

/-! ## Segment decoder -/

/-- Box decode of `postprocess_masks` (lines 453-459): here the rectangle is
first built as an integer `cv::Rect`, so the four float arguments are
truncated, before it is rescaled and rounded. -/
def masks_box (scale_boxes : ScaleBoxes) (cvSize : Size) (image_info : ImageInfo)
    (data : List ℚ) (off : Nat) : Rect :=
  let out_w := data.getD (off + 2) 0
  let out_h := data.getD (off + 3) 0
  let out_left := max (data.getD off 0 - (1 / 2) * out_w + 1 / 2) 0
  let out_top := max (data.getD (off + 1) 0 - (1 / 2) * out_h + 1 / 2) 0
  let rect : Rect :=
    ⟨truncInt out_left, truncInt out_top, truncInt (out_w + 1 / 2), truncInt (out_h + 1 / 2)⟩
  let bbox : RectF := rect.toF
  let scaled_bbox := scale_boxes cvSize bbox image_info.raw_size
  scaled_bbox.toRect

/-- The row loop of `postprocess_masks` (lines 441-462); every row carries
`masks_features_num` trailing mask coefficients. -/
def masks_rows (scale_boxes : ScaleBoxes) (cvSize : Size) (image_info : ImageInfo)
    (data : List ℚ) (class_names_num : Nat) (conf_threshold : ℚ) (masks_features_num : Nat) :
    Nat → Nat → List Candidate
  | 0, _ => []
  | n + 1, off =>
    let data_width := class_names_num + 4 + masks_features_num
    let mm := minMaxLoc (rowScores data class_names_num off)
    let rest := masks_rows scale_boxes cvSize image_info data class_names_num conf_threshold
      masks_features_num n (off + data_width)
    if conf_threshold < mm.1 then
      { class_id := mm.2, confidence := mm.1,
        box := masks_box scale_boxes cvSize image_info data off,
        mask := (List.range masks_features_num).map fun j =>
          data.getD (off + 4 + class_names_num + j) 0 } :: rest
    else rest

/-- The numeric part of `_get_mask2` (lines 632-657: matrix product,
sigmoid, Lanczos and bilinear resizing, `scale_image2`), taken as a
parameter. From the selected prototypes, the mask coefficients and the box
it yields the value at `(row, column)` of the probability map, or `none`
when one of its OpenCV calls throws. The map has the size of the original
image, the `dsize` of the last `cv::resize`. -/
abbrev MaskPipeline (Proto : Type) := Proto → List ℚ → Rect → Option (Int → Int → ℚ)

/-- The assertion of `cv::Mat::operator()(const Rect&)`: the region lies
inside a matrix of `rows` by `cols`. -/
def roiInside (rows cols : Int) (roi : Rect) : Bool :=
  decide (0 ≤ roi.x ∧ 0 ≤ roi.width ∧ roi.x + roi.width ≤ cols ∧
    0 ≤ roi.y ∧ 0 ≤ roi.height ∧ roi.y + roi.height ≤ rows)

/-- Mask reconstruction `AutoBackendOnnx::_get_mask2`: the probability map
is cropped to `bound` and thresholded (line 658,
`mask_out = mask_out(bound) > mask_thresh`). -/
def _get_mask2 {Proto : Type} (pipeline : MaskPipeline Proto) (masks_features : List ℚ)
    (proto : Proto) (image_info : ImageInfo) (bound : Rect) (mask_thresh : ℚ) : Option MaskMat :=
  let img0_shape := image_info.raw_size
  match pipeline proto masks_features bound with
  | none => none
  | some prob =>
    if roiInside img0_shape.height img0_shape.width bound then
      some { rows := bound.height, cols := bound.width,
             data := (List.range bound.height.toNat).map fun (r : Nat) =>
               (List.range bound.width.toNat).map fun (c : Nat) =>
                 decide (mask_thresh < prob (bound.y + (r : Int)) (bound.x + (c : Int))) }
    else none

/-- The result loop of `postprocess_masks` (lines 482-499). -/
def masks_results {Proto : Type} (pipeline : MaskPipeline Proto) (proto : Proto)
    (image_info : ImageInfo) (cands : List Candidate) (mask_threshold : ℚ) :
    List Nat → Option (List YoloResults)
  | [] => some []
  | idx :: rest =>
    let c := candAt cands idx
    let box := clipToImage image_info c.box
    match _get_mask2 pipeline c.mask proto image_info box mask_threshold with
    | none => none
    | some mask =>
      match masks_results pipeline proto image_info cands mask_threshold rest with
      | none => none
      | some out =>
        some ({ class_idx := c.class_id, conf := c.confidence, bbox := box.toF,
                mask := mask, keypoints := [] } :: out)

/-- Decoder `AutoBackendOnnx::postprocess_masks`. `proto` is the outcome of
the prototype selection of lines 473-480 (`none` when it throws). -/
def postprocess_masks {Proto : Type} (scale_boxes : ScaleBoxes) (cvSize : Size)
    (pipeline : MaskPipeline Proto) (output0 : Mat) (proto : Option Proto)
    (image_info : ImageInfo) (_output : List YoloResults) (class_names_num : Nat)
    (conf_threshold iou_threshold : ℚ) (masks_features_num : Nat) (mask_threshold : ℚ) :
    Option (List YoloResults) :=
  let cands := masks_rows scale_boxes cvSize image_info output0.data class_names_num
    conf_threshold masks_features_num output0.rows 0
  match NMSBoxes (cands.map (·.box)) (cands.map (·.confidence)) conf_threshold iou_threshold with
  | none => none
  | some nms_result =>
    match proto with
    | none => none
    | some pr => masks_results pipeline pr image_info cands mask_threshold nms_result

/-! ## Pose decoder -/

/-- The helper `non_max_suppression` of utils/ops.h, which is not part of
the source file: from the raw tensor, the class count, the row width and the
two thresholds it yields the parallel vectors `boxes`, `confidences`,
`class_ids` and `rest`. -/
abbrev NonMaxSuppression :=
  Mat → Nat → Nat → ℚ → ℚ → Option (List Rect × List ℚ × List Int × List (List ℚ))

/-- The helper `scale_coords` of utils/ops.h, which is not part of the
source file. -/
abbrev ScaleCoords := Size → List ℚ → Size → List ℚ

/-- The loop body of `postprocess_kpts` (lines 583-592) for index `i`. -/
def kpts_result (scale_boxes : ScaleBoxes) (scale_coords : ScaleCoords) (cvSize : Size)
    (image_info : ImageInfo) (boxes : List Rect) (confidences : List ℚ) (class_ids : List Int)
    (rest : List (List ℚ)) (i : Nat) : YoloResults :=
  let img1_shape := cvSize
  let bound_bbox : RectF :=
    ⟨0, 0, toFloat image_info.raw_size.width, toFloat image_info.raw_size.height⟩
  let bbox : RectF := (boxes.getD i Rect_.zero).toF
  let scaled_bbox := (scale_boxes img1_shape bbox image_info.raw_size).interF bound_bbox
  let kpt := scale_coords img1_shape (rest.getD i []) image_info.raw_size
  { class_idx := class_ids.getD i 0, conf := confidences.getD i 0, bbox := scaled_bbox,
    mask := MaskMat.none, keypoints := kpt }

/-- Decoder `AutoBackendOnnx::postprocess_kpts`; it appends to `output`
without clearing it. -/
def postprocess_kpts (non_max_suppression : NonMaxSuppression) (scale_boxes : ScaleBoxes)
    (scale_coords : ScaleCoords) (cvSize : Size) (output0 : Mat) (image_info : ImageInfo)
    (output : List YoloResults) (class_names_num : Nat) (conf_threshold iou_threshold : ℚ) :
    Option (List YoloResults) :=
  match non_max_suppression output0 class_names_num output0.cols conf_threshold iou_threshold with
  | none => none
  | some (boxes, confidences, class_ids, rest) =>
    some (output ++ (List.range boxes.length).map
      (kpts_result scale_boxes scale_coords cvSize image_info boxes confidences class_ids rest))

/-! ## Classify decoder -/

/-- The loop of `postprocess_classify` (lines 604-615): `n` columns remain,
the next one is `i`; `results` grows by `push_back`. -/
def classify_loop (data : List ℚ) : Nat → Nat → List YoloResults → List YoloResults
  | 0, _, results => results
  | n + 1, i, results =>
    let confidence := data.getD i 0
    if 1 / 2 < confidence then
      classify_loop data n (i + 1)
        (results ++ [{ YoloResults.init with class_idx := (i : Int), conf := confidence }])
    else classify_loop data n (i + 1) results

/-- Decoder `AutoBackendOnnx::postprocess_classify`: clears `results`,
asserts a single row (`CV_Assert`, `none` on failure) and scans the scores
against the literal `0.5`. -/
def postprocess_classify (outputTensor : Mat) (_results : List YoloResults) :
    Option (List YoloResults) :=
  let results : List YoloResults := []
  if outputTensor.rows = 1 then
    some (classify_loop outputTensor.data outputTensor.cols 0 results)
  else none

/-- The `CLASSIFY` branch of `predict_once` (lines 330-342) after inference:
`output0` is the `1 x num_classes` score matrix built from the output
tensor; the thresholds `conf`, `iou` and `mask_threshold` of the caller are
in scope but are not passed on. -/
def predict_once_classify (output0 : Mat) (_conf _iou _mask_threshold : ℚ) :
    Option (List YoloResults) :=
  let results : List YoloResults := []
  postprocess_classify output0 results

/-! ## Box rescaling as the specification describes it -/

/-- Modelled from the spec: the record `ImageGeometry` of the preprocessing
transform, reduced to the scale factor and the left and top padding that the
coordinate rescale uses. -/
structure ImageGeometry where
  scaleFactor : ℚ
  padLeft : ℚ
  padTop : ℚ
deriving DecidableEq, Repr

/-- Modelled from the spec: `scale_boxes` of utils/ops.h, which is not part
of the source file. The rescale to original-image space is
`coord' = (coord - padding) / scaleFactor`, applied to both box corners, so
the size is divided by the scale factor. -/
def scale_boxes_spec (g : ImageGeometry) : ScaleBoxes := fun _ box _ =>
  ⟨(box.x - g.padLeft) / g.scaleFactor, (box.y - g.padTop) / g.scaleFactor,
   box.width / g.scaleFactor, box.height / g.scaleFactor⟩

/-! ## Metadata resolver -/

/-- Modelled from the spec: key `MetadataConstants::IMGSZ` (constants.h is
not under src/). -/
def MetadataConstants.IMGSZ : String := "imgsz"

/-- Modelled from the spec: key `MetadataConstants::STRIDE`. -/
def MetadataConstants.STRIDE : String := "stride"

/-- Modelled from the spec: key `MetadataConstants::NAMES`. -/
def MetadataConstants.NAMES : String := "names"

/-- Modelled from the spec: key `MetadataConstants::TASK`. -/
def MetadataConstants.TASK : String := "task"

/-- The sentinels of `OnnxInitializers` (constants.h, not part of the source
file), taken as parameters. -/
structure OnnxInitializers where
  UNINITIALIZED_STRIDE : Int
  UNINITIALIZED_NC : Int

/-- The string parsers `loadMetaData` calls, none of them part of the source
file: `convertStringVectorToInts (parseVectorString s)`, `std::stoi` and
`parseNames`. A parser yields `none` when it throws on its input. -/
structure MetaParsers where
  parseImgsz : String → Option (List Int)
  stoi : String → Option Int
  parseNames : String → Option (List (Int × String))

/-- The metadata mapping `std::unordered_map<std::string, std::string>`,
seen through `find`. -/
abbrev Metadata := String → Option String

/-- The fields of `AutoBackendOnnx` that `loadMetaData` reads and writes.
The name map `names_` is an association list with one entry per key. -/
structure AutoBackendOnnx where
  imgsz_ : List Int
  stride_ : Int
  nc_ : Int
  names_ : List (Int × String)
  inputTensorShape_ : List Int
  cvSize_ : Size
  task_ : String
  ch_ : Int

/-- Accessor `getHeight()`: the first entry of `imgsz_`. -/
def AutoBackendOnnx.getHeight (self : AutoBackendOnnx) : Int := self.imgsz_.getD 0 0

/-- Accessor `getWidth()`: the second entry of `imgsz_`. -/
def AutoBackendOnnx.getWidth (self : AutoBackendOnnx) : Int := self.imgsz_.getD 1 0

/-- Message of the `throw` of line 66. -/
def errImgsz : String := "Error: Cannot get imgsz value from metadata"

/-- Message of the `throw` of line 141. -/
def errTask : String := "Error: Cannot get task value from metadata"

/-- Stands for the exception of a parser that rejects its input. -/
def errParse : String := "parse error"

/-- Lines 54-67: `imgsz` is required. -/
def loadImgsz (P : MetaParsers) (base_metadata : Metadata) (self : AutoBackendOnnx) :
    Except String AutoBackendOnnx :=
  match base_metadata MetadataConstants.IMGSZ with
  | some v =>
    match P.parseImgsz v with
    | some imgsz => Except.ok { self with imgsz_ := imgsz }
    | none => Except.error errParse
  | none => Except.error errImgsz

/-- Lines 69-84: `stride` is optional and only fills an uninitialised field. -/
def loadStride (K : OnnxInitializers) (P : MetaParsers) (base_metadata : Metadata)
    (self : AutoBackendOnnx) : Except String AutoBackendOnnx :=
  match base_metadata MetadataConstants.STRIDE with
  | some v =>
    match P.stoi v with
    | some stide_int =>
      if self.stride_ = K.UNINITIALIZED_STRIDE then Except.ok { self with stride_ := stide_int }
      else Except.ok self
    | none => Except.error errParse
  | none => Except.ok self

/-- Lines 86-99: `names` is optional and only fills an empty map. -/
def loadNames (P : MetaParsers) (base_metadata : Metadata) (self : AutoBackendOnnx) :
    Except String AutoBackendOnnx :=
  match base_metadata MetadataConstants.NAMES with
  | some v =>
    match P.parseNames v with
    | some names =>
      if self.names_.isEmpty then Except.ok { self with names_ := names } else Except.ok self
    | none => Except.error errParse
  | none => Except.ok self

/-- Lines 101-111: the class count is taken from the names when it is
uninitialised and the names are not empty. -/
def loadNc (K : OnnxInitializers) (self : AutoBackendOnnx) : AutoBackendOnnx :=
  if self.nc_ = K.UNINITIALIZED_NC ∧ ¬ self.names_.isEmpty then
    { self with nc_ := (self.names_.length : Int) }
  else self

/-- Lines 113-124: the derived tensor shape and resize target. -/
def loadShapes (self : AutoBackendOnnx) : AutoBackendOnnx :=
  let self1 :=
    if ¬ self.imgsz_.isEmpty ∧ self.inputTensorShape_.isEmpty then
      { self with inputTensorShape_ := [1, self.ch_, self.getHeight, self.getWidth] }
    else self
  if ¬ self1.imgsz_.isEmpty then
    { self1 with cvSize_ := ⟨self1.getWidth, self1.getHeight⟩ }
  else self1

/-- Lines 126-142: `task` is required and only fills an empty field. -/
def loadTask (base_metadata : Metadata) (self : AutoBackendOnnx) :
    Except String AutoBackendOnnx :=
  match base_metadata MetadataConstants.TASK with
  | some task =>
    if self.task_.isEmpty then Except.ok { self with task_ := task } else Except.ok self
  | none => Except.error errTask

/-- Resolver `AutoBackendOnnx::loadMetaData`: the stages run in source order
and the first exception aborts the call. -/
def loadMetaData (K : OnnxInitializers) (P : MetaParsers) (base_metadata : Metadata)
    (self : AutoBackendOnnx) : Except String AutoBackendOnnx :=
  match loadImgsz P base_metadata self with
  | Except.error e => Except.error e
  | Except.ok s1 =>
    match loadStride K P base_metadata s1 with
    | Except.error e => Except.error e
    | Except.ok s2 =>
      match loadNames P base_metadata s2 with
      | Except.error e => Except.error e
      | Except.ok s3 => loadTask base_metadata (loadShapes (loadNc K s3))

/-- The call raised an exception. -/
def raised {ε α : Type} : Except ε α → Bool
  | Except.error _ => true
  | Except.ok _ => false

/-! ## Preprocessing: `fill_blob` -/

/-- An 8-bit image `cv::Mat` with interleaved channels: the value of channel
`c` at row `y` and column `x` is `data[(y * cols + x) * channels + c]`. -/
structure Image where
  rows : Nat
  cols : Nat
  channels : Nat
  data : List Nat
deriving DecidableEq, Repr

/-- Emptiness `cv::Mat::empty()`: no element. -/
def Image.empty (image : Image) : Bool :=
  decide (image.rows = 0 ∨ image.cols = 0)

/-- Conversion `image.convertTo(floatImage, rtype, alpha)`: only the depth of
`rtype` counts, the channel count stays; every value is scaled by `alpha`. -/
def convertTo (image : Image) (alpha : ℚ) : List ℚ :=
  image.data.map fun (v : Nat) => (v : ℚ) * alpha

/-- The plane `chw[c]` as `cv::split` fills it: channel `c` of every pixel,
in row-major order; `area` is `width * height`. -/
def splitPlane (floatData : List ℚ) (area channels c : Nat) : List ℚ :=
  (List.range area).map fun (p : Nat) => floatData.getD (p * channels + c) 0

/-- The planes in the order of their addresses `blob + i * width * height`:
`n` planes remain, the next one is channel `c`. -/
def chwPlanes (floatData : List ℚ) (area channels : Nat) : Nat → Nat → List ℚ
  | 0, _ => []
  | n + 1, c =>
    splitPlane floatData area channels c ++ chwPlanes floatData area channels n (c + 1)

/-- Routine `AutoBackendOnnx::fill_blob`: yields the blob and the tensor
shape, which is taken from the backend when the caller passes an empty one. -/
def fill_blob (self : AutoBackendOnnx) (image : Image) (inputTensorShape : List Int) :
    List ℚ × List Int :=
  let inputTensorShape :=
    if inputTensorShape.isEmpty then self.inputTensorShape_ else inputTensorShape
  let floatImage := convertTo image (1 / 255)
  let blob := chwPlanes floatImage (image.cols * image.rows) image.channels image.channels 0
  (blob, inputTensorShape)

/-! ## Boundary extractor -/

/-- An integer point `cv::Point`. -/
structure Point where
  x : Int
  y : Int
deriving DecidableEq, Repr

/-- The contour tracer `cv::findContours(mask, contours, RETR_EXTERNAL,
CHAIN_APPROX_NONE)` of OpenCV, taken as a parameter. -/
abbrev FindContours := MaskMat → List (List Point)

/-- The shift of lines 701-708: `point.x += bbox.x` adds a float to an `int`
and stores the sum back, truncated. -/
def shiftContours (bbox : RectF) (contours : List (List Point)) : List (List Point) :=
  contours.map fun contour => contour.map fun point =>
    ⟨truncInt ((point.x : ℚ) + bbox.x), truncInt ((point.y : ℚ) + bbox.y)⟩

/-- Routine `AutoBackendOnnx::getBoundaryPoints`: the loop over `objs`
pushes the shifted contours of an object only inside the test
`obj.mask.rows > 0 && obj.mask.cols > 0`. -/
def getBoundaryPoints (findContours : FindContours) :
    List YoloResults → List (List (List Point))
  | [] => []
  | obj :: rest =>
    let bbox := obj.bbox
    if 0 < obj.mask.rows ∧ 0 < obj.mask.cols then
      shiftContours bbox (findContours obj.mask) :: getBoundaryPoints findContours rest
    else getBoundaryPoints findContours rest

/-! ## Public entry point `predict_once` -/

/-- An output tensor of the inference engine: its shape and its data in
row-major order. -/
structure Tensor where
  shape : List Nat
  data : List ℚ
deriving DecidableEq, Repr

/-- The matrix `cv::Mat(cv::Size(shape[2], shape[1]), CV_32F, data).t()`
built from an output tensor `[bs, features, preds_num]`: one row per
prediction. -/
def outputMat (t : Tensor) : Mat :=
  let features := t.shape.getD 1 0
  let preds_num := t.shape.getD 2 0
  ⟨preds_num, features,
    ((List.range preds_num).map fun (r : Nat) =>
      (List.range features).map fun (c : Nat) => t.data.getD (c * preds_num + r) 0).flatten⟩

/-- The task tags of `YoloTasks` (constants.h, not part of the source file),
taken as parameters. -/
structure YoloTasks where
  SEGMENT : String
  DETECT : String
  POSE : String
  CLASSIFY : String

/-- The collaborators of `predict_once` that are not part of the source
file: the OpenCV colour conversion, `letterbox` and `centercrop` of
utils/augment.h, `vector_product` of utils/common.h, the inference call
`forward`, the helpers of utils/ops.h and the numeric part of `_get_mask2`
(given the network input width and height). A collaborator yields `none`
when it throws. -/
structure Collaborators where
  cvtColor : Image → Int → Option Image
  letterbox : Image → Size → Int → Option Image
  centercrop : Image → Size → Option Image
  vector_product : List Int → Int
  forward : List Int → List ℚ → Option (List Tensor)
  scale_boxes : ScaleBoxes
  scale_coords : ScaleCoords
  non_max_suppression : NonMaxSuppression
  maskPipeline : Int → Int → MaskPipeline Tensor

/-- The file system and the image decoder as `predict_once` sees them:
`fs::exists` and `cv::imread(path, cv::IMREAD_UNCHANGED)`, which yields an
empty image when decoding fails. -/
structure FileEnv where
  fileExists : String → Bool
  imread : String → Image

/-- Stands for an exception thrown inside a collaborator or by an OpenCV
assertion. -/
def errLibrary : String := "exception in a library call"

/-- First line of the message of the `throw` of line 213. -/
def errChannels : String :=
  "Error: Number of image channels does not match the required channels."

/-- Second line of the message of the `throw` of line 213, before the
channel count. -/
def errChannelsCount : String := "Number of channels in the image: "

/-- The message of the `throw` of line 213 for an image of `n` channels. -/
def channelMessage (n : Nat) : String :=
  errChannels ++ String.singleton (Char.ofNat 10) ++ errChannelsCount ++ toString n

/-- Prefix of the message of the `throw` of line 345. -/
def errNotImplemented : String := "NotImplementedError: task: "

/-- The values `std::vector<float>(blob, blob + inputTensorSize)` copied out
of the blob. -/
def blobValues (blob : List ℚ) (inputTensorSize : Int) : List ℚ :=
  (List.range inputTensorSize.toNat).map fun (i : Nat) => blob.getD i 0

/-- Routine `AutoBackendOnnx::preprocess` (letterbox variant): the image
after the optional colour conversion, the size of the preprocessed image, the
tensor values and the tensor shape. -/
def preprocess (E : Collaborators) (self : AutoBackendOnnx) (image : Image)
    (conversionCode : Int) : Option (Image × Size × List ℚ × List Int) :=
  match (if 0 ≤ conversionCode then E.cvtColor image conversionCode else some image) with
  | none => none
  | some image =>
    let new_shape : Size := ⟨self.getWidth, self.getHeight⟩
    match E.letterbox image new_shape self.stride_ with
    | none => none
    | some preprocessed_img =>
      let filled := fill_blob self preprocessed_img []
      let inputTensorSize := E.vector_product filled.2
      some (image, ⟨preprocessed_img.cols, preprocessed_img.rows⟩,
        blobValues filled.1 inputTensorSize, filled.2)

/-- Routine `AutoBackendOnnx::preprocess_classify` (centre-crop variant). -/
def preprocess_classify (E : Collaborators) (self : AutoBackendOnnx) (image : Image)
    (conversionCode : Int) : Option (Image × Size × List ℚ × List Int) :=
  match (if 0 ≤ conversionCode then E.cvtColor image conversionCode else some image) with
  | none => none
  | some image =>
    let new_shape : Size := ⟨self.getWidth, self.getHeight⟩
    match E.centercrop image new_shape with
    | none => none
    | some preprocessed_img =>
      let filled := fill_blob self preprocessed_img []
      let inputTensorSize := E.vector_product filled.2
      some (image, ⟨preprocessed_img.cols, preprocessed_img.rows⟩,
        blobValues filled.1 inputTensorSize, filled.2)

/-- An OpenCV assertion failure inside a decoder becomes an exception of the
call. -/
def ofDecoder : Option (List YoloResults) → Except String (List YoloResults)
  | none => Except.error errLibrary
  | some out => Except.ok out

/-- The task dispatch of `predict_once` (lines 262-346) on the output
tensors. -/
def postprocess_by_task (E : Collaborators) (T : YoloTasks) (self : AutoBackendOnnx)
    (image : Image) (outputTensors : List Tensor) (conf iou mask_threshold : ℚ) :
    Except String (List YoloResults) :=
  let results : List YoloResults := []
  let class_names_num := self.names_.length
  let image_info : ImageInfo := ⟨⟨image.cols, image.rows⟩⟩
  let tensor0 := outputTensors.getD 0 ⟨[], []⟩
  if self.task_ = T.SEGMENT then
    let tensor1 := outputTensors.getD 1 ⟨[], []⟩
    let output0 := outputMat tensor0
    let iw := self.getWidth
    let ih := self.getHeight
    let mask_features_num := tensor1.shape.getD 1 0
    ofDecoder (postprocess_masks E.scale_boxes self.cvSize_ (E.maskPipeline iw ih) output0
      (some tensor1) image_info results class_names_num conf iou mask_features_num
      mask_threshold)
  else if self.task_ = T.DETECT then
    ofDecoder (postprocess_detects E.scale_boxes self.cvSize_ (outputMat tensor0) image_info
      results class_names_num conf iou)
  else if self.task_ = T.POSE then
    ofDecoder (postprocess_kpts E.non_max_suppression E.scale_boxes E.scale_coords self.cvSize_
      (outputMat tensor0) image_info results class_names_num conf iou)
  else if self.task_ = T.CLASSIFY then
    let output0 : Mat := ⟨1, tensor0.shape.getD 1 0, tensor0.data⟩
    ofDecoder (postprocess_classify output0 results)
  else Except.error (errNotImplemented ++ self.task_)

/-- Entry point `predict_once(cv::Mat& image, conf, iou, mask_threshold,
conversionCode, verbose)`: preprocessing by task, inference, decoding by
task. Timing and the verbose printout are left out. -/
def predict_once_mat (E : Collaborators) (T : YoloTasks) (self : AutoBackendOnnx)
    (image : Image) (conf iou mask_threshold : ℚ) (conversionCode : Int) :
    Except String (List YoloResults) :=
  match (if self.task_ ≠ T.CLASSIFY then preprocess E self image conversionCode
         else preprocess_classify E self image conversionCode) with
  | none => Except.error errLibrary
  | some (image, _, inputTensorValues, inputTensorShape) =>
    match E.forward inputTensorShape inputTensorValues with
    | none => Except.error errLibrary
    | some outputTensors =>
      postprocess_by_task E T self image outputTensors conf iou mask_threshold

/-- Entry point `predict_once(const fs::path& imagePath, ...)`: a missing file
and a failed decode return no results; a channel count other than `getCh()`
throws; otherwise the in-memory overload runs. -/
def predict_once_path (F : FileEnv) (E : Collaborators) (T : YoloTasks)
    (self : AutoBackendOnnx) (imagePath : String) (conf iou mask_threshold : ℚ)
    (conversionCode : Int) : Except String (List YoloResults) :=
  if ¬ F.fileExists imagePath then Except.ok []
  else
    let image := F.imread imagePath
    if image.empty then Except.ok []
    else
      let required_image_channels := self.ch_
      if required_image_channels ≠ (image.channels : Int) then
        Except.error (channelMessage image.channels)
      else predict_once_mat E T self image conf iou mask_threshold conversionCode

/-! ## Predicates and sample parameters used in the statements -/

/-- The box lies inside the original image: non-negative corner and size,
right and bottom edges within `W` and `H`. -/
def insideImage (image_info : ImageInfo) (b : RectF) : Prop :=
  0 ≤ b.x ∧ 0 ≤ b.y ∧ 0 ≤ b.width ∧ 0 ≤ b.height ∧
    b.x + b.width ≤ (image_info.raw_size.width : ℚ) ∧
    b.y + b.height ≤ (image_info.raw_size.height : ℚ)

/-- The geometry with scale factor 1 and no padding. -/
def unitGeometry : ImageGeometry := ⟨1, 0, 0⟩

/-- A sample mask pipeline that never throws: the probability map is 1
everywhere. -/
def constPipeline : MaskPipeline Unit := fun _ _ _ => some fun _ _ => 1

/-- A sample `non_max_suppression` outcome: one box that sticks out of a
640 x 640 image. -/
def sampleNms : NonMaxSuppression := fun _ _ _ _ _ =>
  some ([⟨600, -10, 100, 100⟩], [9 / 10], [0], [[1, 2, 3]])

/-- A 640 x 640 image. -/
def image640 : ImageInfo := ⟨⟨640, 640⟩⟩

/-- The Classify result as the specification words it: in ascending index
order, one result for every class index whose score exceeds the threshold,
carrying that index and that score. -/
def classify_expected (threshold : ℚ) (scores : List ℚ) (cols : Nat) : List YoloResults :=
  (List.range cols).filterMap fun (i : Nat) =>
    if threshold < scores.getD i 0 then
      some { YoloResults.init with class_idx := (i : Int), conf := scores.getD i 0 }
    else none

/-- Two rectangles of non-negative size that are not both empty. -/
def wellFormedPair (a b : Rect) : Prop :=
  0 ≤ a.width ∧ 0 ≤ a.height ∧ 0 ≤ b.width ∧ 0 ≤ b.height ∧ 0 < a.area + b.area

/-- The class, confidence and box of a result. -/
def YoloResults.core (d : YoloResults) : Int × ℚ × RectF := (d.class_idx, d.conf, d.bbox)

/-- Two raw buffers agree, on each of the first `rows` rows of width `dw`,
on the four box values and on the maximum class score. -/
def agreeOnBoxAndScore (d1 d2 : List ℚ) (nc dw rows : Nat) : Prop :=
  ∀ r < rows, (∀ k < 4, d1.getD (r * dw + k) 0 = d2.getD (r * dw + k) 0) ∧
    (minMaxLoc (rowScores d1 nc (r * dw))).1 = (minMaxLoc (rowScores d2 nc (r * dw))).1

/-- Two raw buffers agree, on each of the first `rows` rows of width `dw`,
on the `mfn` mask coefficients that follow the `nc` class scores. -/
def agreeOnMaskCoeffs (d1 d2 : List ℚ) (nc mfn dw rows : Nat) : Prop :=
  ∀ r < rows, ∀ j < mfn, d1.getD (r * dw + 4 + nc + j) 0 = d2.getD (r * dw + 4 + nc + j) 0

/-- A candidate without its class: confidence, box and mask coefficients. -/
def Candidate.noClass (c : Candidate) : ℚ × Rect × List ℚ := (c.confidence, c.box, c.mask)

/-- A result without its class: confidence, box and mask. -/
def YoloResults.noClass (d : YoloResults) : ℚ × RectF × MaskMat := (d.conf, d.bbox, d.mask)

/-- Two rows of two classes whose decoded boxes `(0, 0, 5793, 5793)` and
`(0, 0, 5525, 3037)` have an intersection over union just above one half;
the first row scores class 0 highest, the second class 1. -/
def roundingTensor : Mat :=
  ⟨2, 6, [23171 / 8, 23171 / 8, 23171 / 4, 23171 / 4, 9 / 10, 1 / 10,
          22099 / 8, 12147 / 8, 22099 / 4, 12147 / 4, 2 / 10, 8 / 10]⟩

/-- A 6000 x 6000 image. -/
def image6000 : ImageInfo := ⟨⟨6000, 6000⟩⟩

/-- The confidence and box of a candidate. -/
def Candidate.confBox (c : Candidate) : ℚ × Rect := (c.confidence, c.box)

instance : IsTotal (ℚ × Nat) scoreDescend := ⟨fun p q => le_total q.1 p.1⟩

instance : IsTrans (ℚ × Nat) scoreDescend := ⟨fun _ _ _ h1 h2 => le_trans h2 h1⟩

/-- Every value present under the three parsed keys is accepted by its
parser. -/
def presentValuesParse (P : MetaParsers) (base_metadata : Metadata) : Prop :=
  (∀ v, base_metadata MetadataConstants.IMGSZ = some v → (P.parseImgsz v).isSome = true) ∧
  (∀ v, base_metadata MetadataConstants.STRIDE = some v → (P.stoi v).isSome = true) ∧
  (∀ v, base_metadata MetadataConstants.NAMES = some v → (P.parseNames v).isSome = true)

/-- Sample sentinels. -/
def sampleInitializers : OnnxInitializers := ⟨-1, -1⟩

/-- A sample class label. -/
def sampleLabel : String := "person"

/-- Sample parsers that accept every string. -/
def sampleParsers : MetaParsers :=
  ⟨fun _ => some [640, 640], fun _ => some 32, fun _ => some [(0, sampleLabel)]⟩

/-- A sample `imgsz` value. -/
def sampleImgszValue : String := "[640, 640]"

/-- A sample `task` value. -/
def sampleTaskValue : String := "detect"

/-- Sample metadata with `imgsz` and `task` only. -/
def sampleMetadata : Metadata := fun key =>
  if key = MetadataConstants.IMGSZ then some sampleImgszValue
  else if key = MetadataConstants.TASK then some sampleTaskValue
  else none

/-- The empty string of a default-constructed `std::string`. -/
def emptyString : String := String.mk []

/-- A backend before metadata resolution. -/
def sampleBackend : AutoBackendOnnx := ⟨[], -1, -1, [], [], ⟨0, 0⟩, emptyString, 3⟩

instance (d1 d2 : List ℚ) (nc dw rows : Nat) :
    Decidable (agreeOnBoxAndScore d1 d2 nc dw rows) := by
  unfold agreeOnBoxAndScore
  infer_instance

/-- Two rows of two classes with boxes `(0, 0, 20, 20)` and `(0, 0, 20, 16)`,
which overlap by 0.8; the first row scores 0.9 for class 0, the second 0.8
for class 1. -/
def classTensorA : Mat :=
  ⟨2, 6, [10, 10, 20, 20, 9 / 10, 1 / 10, 10, 8, 20, 16, 2 / 10, 8 / 10]⟩

/-- The rows of `classTensorA` with the class scores swapped: same boxes,
same maximum scores, other arg-max classes. -/
def classTensorB : Mat :=
  ⟨2, 6, [10, 10, 20, 20, 1 / 10, 9 / 10, 10, 8, 20, 16, 8 / 10, 2 / 10]⟩

/-! ## Predicates and sample parameters for the boundary extractor, the resolver and the entry point -/

/-- The detection carries a mask: the test of line 695. -/
def hasMask (obj : YoloResults) : Bool := decide (0 < obj.mask.rows ∧ 0 < obj.mask.cols)

/-- A sample contour tracer: one contour of two points for every mask. -/
def sampleFindContours : FindContours := fun _ => [[⟨0, 0⟩, ⟨1, 0⟩]]

/-- A Segment result without mask. -/
def detNoMask : YoloResults := ⟨0, 9 / 10, ⟨5, 7, 0, 0⟩, MaskMat.none, []⟩

/-- A Segment result with a 1 x 2 mask and box corner `(10, 20)`. -/
def detWithMask : YoloResults := ⟨1, 8 / 10, ⟨10, 20, 2, 1⟩, ⟨1, 2, [[true, true]]⟩, []⟩

/-- Sample parsers whose names parser yields the empty mapping. -/
def emptyNamesParsers : MetaParsers :=
  ⟨fun _ => some [640, 640], fun _ => some 32, fun _ => some []⟩

/-- A sample `stride` value. -/
def sampleStrideValue : String := "32"

/-- A sample `names` value. -/
def sampleNamesValue : String := "names"

/-- Sample metadata that supplies `imgsz`, `stride`, `names` and `task`. -/
def fullMetadata : Metadata := fun key =>
  if key = MetadataConstants.IMGSZ then some sampleImgszValue
  else if key = MetadataConstants.STRIDE then some sampleStrideValue
  else if key = MetadataConstants.NAMES then some sampleNamesValue
  else if key = MetadataConstants.TASK then some sampleTaskValue
  else none

/-- The class count and the number of names after a completed call. -/
def countAndNames (r : Except String AutoBackendOnnx) : Option (Int × Nat) :=
  match r with
  | Except.ok s => some (s.nc_, s.names_.length)
  | Except.error _ => none

/-- A sample tag for the Segment task. -/
def taskSegment : String := "segment"

/-- A sample tag for the Detect task. -/
def taskDetect : String := "detect"

/-- A sample tag for the Pose task. -/
def taskPose : String := "pose"

/-- A sample tag for the Classify task. -/
def taskClassify : String := "classify"

/-- Sample task tags. -/
def sampleTasks : YoloTasks := ⟨taskSegment, taskDetect, taskPose, taskClassify⟩

/-- Sample collaborators that never throw: the image helpers return their
input, the inference yields the scores `[0.1, 0.6, 0.3]` of three classes. -/
def sampleCollaborators : Collaborators :=
  { cvtColor := fun image _ => some image
    letterbox := fun image _ _ => some image
    centercrop := fun image _ => some image
    vector_product := fun shape => shape.foldl (fun a b => a * b) 1
    forward := fun _ _ => some [⟨[1, 3], [1 / 10, 6 / 10, 3 / 10]⟩]
    scale_boxes := scale_boxes_spec unitGeometry
    scale_coords := fun _ k _ => k
    non_max_suppression := sampleNms
    maskPipeline := fun _ _ _ _ _ => some fun _ _ => 1 }

/-- A Classify backend with three classes that expects 3 channels and a
1 x 1 input. -/
def classifyBackend : AutoBackendOnnx :=
  ⟨[1, 1], 32, 3, [(0, sampleLabel), (1, sampleLabel), (2, sampleLabel)], [1, 3, 1, 1], ⟨1, 1⟩,
    taskClassify, 3⟩

/-- A 1 x 1 image with 4 channels (blue, green, red, alpha). -/
def bgraImage : Image := ⟨1, 1, 4, [10, 20, 30, 40]⟩

/-- A file system in which every path decodes to `bgraImage`. -/
def sampleFiles : FileEnv := ⟨fun _ => true, fun _ => bgraImage⟩

/-- The results of a completed call. -/
def returned (r : Except String (List YoloResults)) : Option (List YoloResults) :=
  match r with
  | Except.ok out => some out
  | Except.error _ => none

/-- The Detect tensor of the scenario row: box `(100, 100, 50, 50)`, class 2
at 0.9. -/
def scenarioDetectTensor : Mat := ⟨1, 7, [100, 100, 50, 50, 1 / 10, 2 / 10, 9 / 10]⟩

/-- The Segment tensor with the same box values and class scores and one
trailing mask coefficient. -/
def scenarioSegmentTensor : Mat := ⟨1, 8, [100, 100, 50, 50, 1 / 10, 2 / 10, 9 / 10, 1]⟩

/-- The box lies inside the original image up to the rounding of its size:
non-negative corner and size, right and bottom edges within `W` and `H`
enlarged by the relative rounding error `2 ^ (-24)` of `float`. -/
def insideImageUpToRounding (image_info : ImageInfo) (b : RectF) : Prop :=
  0 ≤ b.x ∧ 0 ≤ b.y ∧ 0 ≤ b.width ∧ 0 ≤ b.height ∧
    b.x + b.width ≤ (image_info.raw_size.width : ℚ) * (1 + 1 / 2 ^ 24) ∧
    b.y + b.height ≤ (image_info.raw_size.height : ℚ) * (1 + 1 / 2 ^ 24)

/-- A sample `non_max_suppression` outcome: one wide box in network-input
space. -/
def sampleNmsWide : NonMaxSuppression := fun _ _ _ _ _ =>
  some ([⟨1, 0, 10000, 100⟩], [9 / 10], [0], [[]])

/-- A sample `scale_boxes` for a gain of 10 without padding, computed in
`float`: the box `(1, 0, 10000, 100)` becomes `(0.1f, 0, 1000, 10)`. -/
def scaleTenth : ScaleBoxes := fun _ box _ =>
  ⟨toFloat (box.x / 10), toFloat (box.y / 10), toFloat (box.width / 10),
   toFloat (box.height / 10)⟩

/-! ## Lemmas on rectangles -/

section RectLemmas
variable {T : Type} [LinearOrderedCommRing T]

/-- A rectangle intersected with the image rectangle lies inside the image. -/
theorem Rect_.inter_image_bounds (a : Rect_ T) (W H : T) (hW : 0 ≤ W) (hH : 0 ≤ H) :
    let r := a.inter ⟨0, 0, W, H⟩
    0 ≤ r.x ∧ 0 ≤ r.y ∧ 0 ≤ r.width ∧ 0 ≤ r.height ∧ r.x + r.width ≤ W ∧ r.y + r.height ≤ H := by
  intro r
  show 0 ≤ (a.inter ⟨0, 0, W, H⟩).x ∧ 0 ≤ (a.inter ⟨0, 0, W, H⟩).y ∧
    0 ≤ (a.inter ⟨0, 0, W, H⟩).width ∧ 0 ≤ (a.inter ⟨0, 0, W, H⟩).height ∧
    (a.inter ⟨0, 0, W, H⟩).x + (a.inter ⟨0, 0, W, H⟩).width ≤ W ∧
    (a.inter ⟨0, 0, W, H⟩).y + (a.inter ⟨0, 0, W, H⟩).height ≤ H
  unfold Rect_.inter
  by_cases h : min (a.x + a.width) (0 + W) - max a.x 0 ≤ 0 ∨
      min (a.y + a.height) (0 + H) - max a.y 0 ≤ 0
  · simp only [h, if_true, Rect_.zero]
    simp [hW, hH]
  · simp only [h, if_false]
    push_neg at h
    refine ⟨le_max_right _ _, le_max_right _ _, h.1.le, h.2.le, ?_, ?_⟩
    · have := min_le_right (a.x + a.width) (0 + W)
      simp only [zero_add] at this ⊢
      linarith
    · have := min_le_right (a.y + a.height) (0 + H)
      simp only [zero_add] at this ⊢
      linarith

end RectLemmas

/-- The clipped box, seen as a float rectangle, lies inside the image. -/
theorem clipToImage_bounds (image_info : ImageInfo) (box : Rect)
    (hW : 0 ≤ image_info.raw_size.width) (hH : 0 ≤ image_info.raw_size.height) :
    let r := (clipToImage image_info box).toF
    0 ≤ r.x ∧ 0 ≤ r.y ∧ 0 ≤ r.width ∧ 0 ≤ r.height ∧
      r.x + r.width ≤ (image_info.raw_size.width : ℚ) ∧
      r.y + r.height ≤ (image_info.raw_size.height : ℚ) := by
  intro r
  obtain ⟨h1, h2, h3, h4, h5, h6⟩ :=
    Rect_.inter_image_bounds box image_info.raw_size.width image_info.raw_size.height hW hH
  refine ⟨?_, ?_, ?_, ?_, ?_, ?_⟩ <;> simp only [r, Rect.toF, clipToImage] <;> exact_mod_cast ‹_›

/-! ## Lemmas on rounding -/

/-- Rounding to the nearest integer exceeds the value by at most one half. -/
theorem cvRound_le (v : ℚ) : (cvRound v : ℚ) ≤ v + 1 / 2 := by
  have hf : ((⌊v⌋ : Int) : ℚ) ≤ v := Int.floor_le v
  unfold cvRound
  simp only
  split_ifs with h1 h2 h3
  · linarith
  · push_cast
    linarith
  · linarith
  · push_cast
    have : v - (⌊v⌋ : ℚ) = 1 / 2 := le_antisymm (not_lt.mp h2) (not_lt.mp h1)
    linarith

/-- A non-negative value rounds to a non-negative integer. -/
theorem cvRound_nonneg (v : ℚ) (hv : 0 ≤ v) : 0 ≤ cvRound v := by
  have hf : 0 ≤ ⌊v⌋ := Int.floor_nonneg.mpr hv
  unfold cvRound
  simp only
  split_ifs <;> omega

/-- The bit length `len` of a positive `n` satisfies `2 ^ len ≤ 2 * n` and
`n < 2 ^ len`. -/
theorem bitLength_bounds : ∀ (fuel n : Nat), n ≤ fuel → 0 < n →
    2 ^ bitLength fuel n ≤ 2 * n ∧ n < 2 ^ bitLength fuel n
  | 0, n, h, hn => by omega
  | fuel + 1, n, h, hn => by
    have hne : n ≠ 0 := by omega
    unfold bitLength
    rw [if_neg hne]
    by_cases h2 : n / 2 = 0
    · have h1 : n = 1 := by omega
      have hb : bitLength fuel (n / 2) = 0 := by
        rw [h2]
        cases fuel <;> simp [bitLength]
      rw [hb, h1]
      decide
    · have hpos : 0 < n / 2 := Nat.pos_of_ne_zero h2
      obtain ⟨ih1, ih2⟩ := bitLength_bounds fuel (n / 2) (by omega) hpos
      rw [pow_succ]
      constructor <;> omega

/-- The power of two of the binary exponent is at most the value. -/
theorem binaryExponent_le (a : ℚ) (ha : 0 < a) : (2 : ℚ) ^ binaryExponent a ≤ a := by
  unfold binaryExponent
  simp only
  split_ifs with h
  · exact h
  · have hnum : 0 < a.num := Rat.num_pos.mpr ha
    have hn : 0 < a.num.natAbs := Int.natAbs_pos.mpr hnum.ne'
    have hd : 0 < a.den := a.den_pos
    obtain ⟨hN, _⟩ := bitLength_bounds a.num.natAbs a.num.natAbs le_rfl hn
    obtain ⟨_, hD⟩ := bitLength_bounds a.den a.den le_rfl hd
    set N := bitLength a.num.natAbs a.num.natAbs
    set D := bitLength a.den a.den
    have ha_eq : a = (a.num.natAbs : ℚ) / (a.den : ℚ) := by
      have h1 : ((a.num.natAbs : Nat) : ℚ) = (a.num : ℚ) := by
        rw [show ((a.num.natAbs : Nat) : ℚ) = (((a.num.natAbs : Nat) : Int) : ℚ) from
          (Int.cast_natCast _).symm, Int.natAbs_of_nonneg hnum.le]
      rw [h1]
      exact (Rat.num_div_den a).symm
    have hpow : (2 : ℚ) ^ ((N : Int) - (D : Int) - 1) = (2 : ℚ) ^ N / (2 * (2 : ℚ) ^ D) := by
      rw [zpow_sub₀ (by norm_num), zpow_sub₀ (by norm_num), zpow_natCast, zpow_natCast, zpow_one]
      field_simp
      ring
    rw [hpow]
    have hNq : ((2 : ℚ) ^ N) ≤ 2 * (a.num.natAbs : ℚ) := by exact_mod_cast hN
    have hDq : (a.den : ℚ) ≤ (2 : ℚ) ^ D := by exact_mod_cast hD.le
    have hdq : (0 : ℚ) < (a.den : ℚ) := by exact_mod_cast hd
    have hnq : (0 : ℚ) ≤ (a.num.natAbs : ℚ) := by positivity
    rw [ha_eq, div_le_div_iff₀ (by positivity) hdq]
    calc (2 : ℚ) ^ N * (a.den : ℚ) ≤ (2 * (a.num.natAbs : ℚ)) * (2 : ℚ) ^ D :=
          mul_le_mul hNq hDq hdq.le (by positivity)
      _ = (a.num.natAbs : ℚ) * (2 * (2 : ℚ) ^ D) := by ring

/-- A value that is not positive rounds to a value that is not positive. -/
theorem roundToBits_nonpos (p : Nat) (q : ℚ) (hq : q ≤ 0) : roundToBits p q ≤ 0 := by
  unfold roundToBits
  split_ifs with h0 hneg
  · exact le_rfl
  · simp only
    have hquant : (0 : ℚ) < (2 : ℚ) ^ (binaryExponent |q| - ((p : Int) - 1)) := by positivity
    have hm : 0 ≤ cvRound (|q| / (2 : ℚ) ^ (binaryExponent |q| - ((p : Int) - 1))) :=
      cvRound_nonneg _ (by positivity)
    have hmq : (0 : ℚ) ≤ (cvRound (|q| / (2 : ℚ) ^ (binaryExponent |q| - ((p : Int) - 1))) : ℚ) := by
      exact_mod_cast hm
    have := mul_nonneg hmq hquant.le
    linarith
  · exact absurd (lt_of_le_of_ne hq h0) hneg

/-- Rounding a positive value to `p` bits raises it by at most the relative
error `2 ^ (-p)`. -/
theorem roundToBits_le (p : Nat) (q : ℚ) (hq : 0 < q) :
    roundToBits p q ≤ q * (1 + 1 / 2 ^ p) := by
  have habs : |q| = q := abs_of_pos hq
  unfold roundToBits
  rw [if_neg hq.ne', if_neg (not_lt.mpr hq.le)]
  simp only [habs]
  set quantum : ℚ := (2 : ℚ) ^ (binaryExponent q - ((p : Int) - 1)) with hquantum
  have hquant : (0 : ℚ) < quantum := by positivity
  have hround := cvRound_le (q / quantum)
  have h1 : (cvRound (q / quantum) : ℚ) * quantum ≤ (q / quantum + 1 / 2) * quantum :=
    mul_le_mul_of_nonneg_right hround hquant.le
  have h2 : (q / quantum + 1 / 2) * quantum = q + quantum / 2 := by
    field_simp
    ring
  have h3 : quantum = (2 : ℚ) ^ binaryExponent q * (2 / 2 ^ p) := by
    rw [hquantum, zpow_sub₀ (by norm_num), zpow_sub₀ (by norm_num), zpow_natCast, zpow_one]
    field_simp
  have h4 : quantum ≤ q * (2 / 2 ^ p) := by
    rw [h3]
    exact mul_le_mul_of_nonneg_right (binaryExponent_le q hq) (by positivity)
  calc (cvRound (q / quantum) : ℚ) * quantum ≤ q + quantum / 2 := by rw [← h2]; exact h1
    _ ≤ q + q * (2 / 2 ^ p) / 2 := by linarith
    _ = q * (1 + 1 / 2 ^ p) := by ring

/-- Rounding to the nearest integer moves the value by at most one half. -/
theorem cvRound_abs_sub_le (v : ℚ) : |(cvRound v : ℚ) - v| ≤ 1 / 2 := by
  have hf : ((⌊v⌋ : Int) : ℚ) ≤ v := Int.floor_le v
  have hl : v < ((⌊v⌋ : Int) : ℚ) + 1 := Int.lt_floor_add_one v
  rw [abs_le]
  unfold cvRound
  simp only
  split_ifs with h1 h2 h3
  · constructor <;> linarith
  · push_cast
    constructor <;> linarith
  · constructor <;> linarith
  · push_cast
    have : v - (⌊v⌋ : ℚ) = 1 / 2 := le_antisymm (not_lt.mp h2) (not_lt.mp h1)
    constructor <;> linarith

/-- Rounding to `p` bits moves a value by at most the relative error
`2 ^ (-p)`. -/
theorem roundToBits_abs_sub_le (p : Nat) (q : ℚ) :
    |roundToBits p q - q| ≤ |q| * (1 / 2 ^ p) := by
  by_cases h0 : q = 0
  · subst h0
    simp [roundToBits]
  have habs : 0 < |q| := abs_pos.mpr h0
  unfold roundToBits
  rw [if_neg h0]
  simp only
  generalize hA : |q| = A at habs
  set quantum : ℚ := (2 : ℚ) ^ (binaryExponent A - ((p : Int) - 1)) with hquantum
  have hquant : (0 : ℚ) < quantum := by positivity
  have hround := cvRound_abs_sub_le (A / quantum)
  have h3 : quantum = (2 : ℚ) ^ binaryExponent A * (2 / 2 ^ p) := by
    rw [hquantum, zpow_sub₀ (by norm_num), zpow_sub₀ (by norm_num), zpow_natCast, zpow_one]
    field_simp
  have h4 : quantum ≤ A * (2 / 2 ^ p) := by
    rw [h3]
    exact mul_le_mul_of_nonneg_right (binaryExponent_le A habs) (by positivity)
  have h5 : |(cvRound (A / quantum) : ℚ) * quantum - A| ≤ quantum / 2 := by
    have e : (cvRound (A / quantum) : ℚ) * quantum - A =
        ((cvRound (A / quantum) : ℚ) - A / quantum) * quantum := by
      field_simp
    rw [e, abs_mul, abs_of_pos hquant]
    calc |(cvRound (A / quantum) : ℚ) - A / quantum| * quantum ≤ 1 / 2 * quantum :=
          mul_le_mul_of_nonneg_right hround hquant.le
      _ = quantum / 2 := by ring
  have h6 : quantum / 2 ≤ A * (1 / 2 ^ p) := by
    calc quantum / 2 ≤ A * (2 / 2 ^ p) / 2 := by linarith
      _ = A * (1 / 2 ^ p) := by ring
  split_ifs with hneg
  · have hq : A = -q := by rw [← hA]; exact abs_of_neg hneg
    have e : -((cvRound (A / quantum) : ℚ) * quantum) - q =
        -((cvRound (A / quantum) : ℚ) * quantum - A) := by
      rw [hq]; ring
    rw [e, abs_neg]
    exact h5.trans h6
  · have hq : A = q := by rw [← hA]; exact abs_of_nonneg (not_lt.mp hneg)
    have e : (cvRound (A / quantum) : ℚ) * quantum - q =
        (cvRound (A / quantum) : ℚ) * quantum - A := by
      rw [hq]
    rw [e]
    exact h5.trans h6

/-- Rounding after an approximation: the errors add up. -/
theorem roundToBits_near (p : Nat) (x y δ B : ℚ) (h : |x - y| ≤ δ) (hB : |x| ≤ B) :
    |roundToBits p x - y| ≤ δ + B * (1 / 2 ^ p) := by
  have h1 := roundToBits_abs_sub_le p x
  have h2 : |x| * (1 / 2 ^ p) ≤ B * (1 / 2 ^ p) :=
    mul_le_mul_of_nonneg_right hB (by positivity)
  have h3 : roundToBits p x - y = (roundToBits p x - x) + (x - y) := by ring
  rw [h3]
  calc |(roundToBits p x - x) + (x - y)| ≤ |roundToBits p x - x| + |x - y| := abs_add _ _
    _ ≤ δ + B * (1 / 2 ^ p) := by linarith

/-- The error of a quotient of two approximations. -/
theorem quotient_near (A d tA D1 u : ℚ) (hA : 0 ≤ A) (hd : 0 < d) (hAd : A ≤ d) (hu0 : 0 ≤ u)
    (hu : 10 * u ≤ 1) (h1 : |tA - A| ≤ A * u) (h2 : |D1 - d| ≤ 5 * d * u) :
    |tA / D1 - A / d| ≤ 12 * u := by
  obtain ⟨h1l, h1r⟩ := abs_le.mp h1
  obtain ⟨h2l, h2r⟩ := abs_le.mp h2
  have hdu : 0 ≤ d * u := mul_nonneg hd.le hu0
  have hD1 : d / 2 ≤ D1 := by nlinarith
  have hD1pos : 0 < D1 := by linarith
  have hAdu : A * (d * u) ≤ d * (d * u) := mul_le_mul_of_nonneg_right hAd hdu
  have e1l : -(A * u) * d ≤ (tA - A) * d := mul_le_mul_of_nonneg_right h1l hd.le
  have e1r : (tA - A) * d ≤ (A * u) * d := mul_le_mul_of_nonneg_right h1r hd.le
  have e2l : -(5 * d * u) * A ≤ (D1 - d) * A := mul_le_mul_of_nonneg_right h2l hA
  have e2r : (D1 - d) * A ≤ (5 * d * u) * A := mul_le_mul_of_nonneg_right h2r hA
  have hnum : |tA * d - D1 * A| ≤ 6 * (d * (d * u)) := by
    rw [abs_le]
    constructor <;> nlinarith
  have hden : 6 * (d * (d * u)) ≤ 12 * u * (D1 * d) := by
    have : d / 2 * (d * u) ≤ D1 * (d * u) := mul_le_mul_of_nonneg_right hD1 hdu
    nlinarith
  rw [div_sub_div _ _ hD1pos.ne' hd.ne', abs_div, abs_of_pos (mul_pos hD1pos hd),
    div_le_iff₀ (mul_pos hD1pos hd)]
  exact hnum.trans hden

/-- The overlap computed in floating point from an intersection area `A` and
a sum of areas `S` differs from the exact quotient by at most `2 ^ (-22)`. -/
theorem overlap_near (A S : ℚ) (hA : 0 ≤ A) (hS : 2 * A ≤ S) (hpos : 0 < S) :
    |toFloat (1 - toFloat (toDouble (1 - toDouble (toDouble A /
        toDouble (toDouble S - toDouble A))))) - A / (S - A)| ≤ 1 / 2 ^ 22 := by
  have hd : 0 < S - A := by linarith
  have hAd : A ≤ S - A := by linarith
  have hI0 : 0 ≤ A / (S - A) := div_nonneg hA hd.le
  have hI1 : A / (S - A) ≤ 1 := (div_le_one hd).mpr hAd
  have hu : (1 : ℚ) / 2 ^ 53 = 1 / 9007199254740992 := by norm_num
  have hv : (1 : ℚ) / 2 ^ 24 = 1 / 16777216 := by norm_num
  -- the two areas
  have e1 : |toDouble A - A| ≤ A * (1 / 2 ^ 53) := by
    have := roundToBits_abs_sub_le 53 A
    rwa [abs_of_nonneg hA] at this
  have e2 : |toDouble S - S| ≤ S * (1 / 2 ^ 53) := by
    have := roundToBits_abs_sub_le 53 S
    rwa [abs_of_pos hpos] at this
  obtain ⟨e1l, e1r⟩ := abs_le.mp e1
  obtain ⟨e2l, e2r⟩ := abs_le.mp e2
  -- the denominator
  have e3 : |toDouble S - toDouble A - (S - A)| ≤ 3 * (S - A) * (1 / 2 ^ 53) := by
    rw [abs_le, hu] at *
    constructor <;> linarith
  have e3B : |toDouble S - toDouble A| ≤ 2 * (S - A) := by
    obtain ⟨l, r⟩ := abs_le.mp e3
    rw [hu] at l r
    rw [abs_le]
    constructor <;> linarith
  have e4 : |toDouble (toDouble S - toDouble A) - (S - A)| ≤ 5 * (S - A) * (1 / 2 ^ 53) := by
    exact (roundToBits_near 53 _ _ _ _ e3 e3B).trans (le_of_eq (by ring))
  -- the quotient
  have e5 : |toDouble A / toDouble (toDouble S - toDouble A) - A / (S - A)| ≤
      12 * (1 / 2 ^ 53) :=
    quotient_near A (S - A) _ _ _ hA hd hAd (by positivity) (by norm_num) e1 e4
  have e5B : |toDouble A / toDouble (toDouble S - toDouble A)| ≤ 2 := by
    obtain ⟨l, r⟩ := abs_le.mp e5
    rw [hu] at l r
    rw [abs_le]
    constructor <;> linarith
  have e6 : |toDouble (toDouble A / toDouble (toDouble S - toDouble A)) - A / (S - A)| ≤
      14 * (1 / 2 ^ 53) := by
    exact (roundToBits_near 53 _ _ _ _ e5 e5B).trans (le_of_eq (by ring))
  -- the distance
  have e7 : |1 - toDouble (toDouble A / toDouble (toDouble S - toDouble A)) -
      (1 - A / (S - A))| ≤ 14 * (1 / 2 ^ 53) := by
    have e : 1 - toDouble (toDouble A / toDouble (toDouble S - toDouble A)) -
        (1 - A / (S - A)) =
        -(toDouble (toDouble A / toDouble (toDouble S - toDouble A)) - A / (S - A)) := by ring
    rw [e, abs_neg]
    exact e6
  have e7B : |1 - toDouble (toDouble A / toDouble (toDouble S - toDouble A))| ≤ 2 := by
    obtain ⟨l, r⟩ := abs_le.mp e7
    rw [hu] at l r
    rw [abs_le]
    constructor <;> linarith
  have e8 : |toDouble (1 - toDouble (toDouble A / toDouble (toDouble S - toDouble A))) -
      (1 - A / (S - A))| ≤ 16 * (1 / 2 ^ 53) := by
    exact (roundToBits_near 53 _ _ _ _ e7 e7B).trans (le_of_eq (by ring))
  have e8B : |toDouble (1 - toDouble (toDouble A / toDouble (toDouble S - toDouble A)))| ≤
      1 + 16 * (1 / 2 ^ 53) := by
    obtain ⟨l, r⟩ := abs_le.mp e8
    rw [abs_le]
    constructor <;> linarith
  have e9 : |toFloat (toDouble (1 - toDouble (toDouble A /
      toDouble (toDouble S - toDouble A)))) - (1 - A / (S - A))| ≤
      16 * (1 / 2 ^ 53) + (1 + 16 * (1 / 2 ^ 53)) * (1 / 2 ^ 24) :=
    roundToBits_near 24 _ _ _ _ e8 e8B
  -- the overlap
  have e10 : |1 - toFloat (toDouble (1 - toDouble (toDouble A /
      toDouble (toDouble S - toDouble A)))) - A / (S - A)| ≤
      16 * (1 / 2 ^ 53) + (1 + 16 * (1 / 2 ^ 53)) * (1 / 2 ^ 24) := by
    have e : 1 - toFloat (toDouble (1 - toDouble (toDouble A /
        toDouble (toDouble S - toDouble A)))) - A / (S - A) =
        -(toFloat (toDouble (1 - toDouble (toDouble A /
          toDouble (toDouble S - toDouble A)))) - (1 - A / (S - A))) := by ring
    rw [e, abs_neg]
    exact e9
  have e10B : |1 - toFloat (toDouble (1 - toDouble (toDouble A /
      toDouble (toDouble S - toDouble A))))| ≤ 2 := by
    obtain ⟨l, r⟩ := abs_le.mp e10
    rw [hu, hv] at l r
    rw [abs_le]
    constructor <;> linarith
  refine (roundToBits_near 24 _ _ _ _ e10 e10B).trans ?_
  norm_num

/-- The intersection of two rectangles of non-negative size has a
non-negative area, at most the area of either. -/
theorem Rect_.inter_area_bounds (a b : Rect) (haw : 0 ≤ a.width) (hah : 0 ≤ a.height)
    (hbw : 0 ≤ b.width) (hbh : 0 ≤ b.height) :
    0 ≤ (a.inter b).area ∧ (a.inter b).area ≤ a.area ∧ (a.inter b).area ≤ b.area := by
  unfold Rect_.inter
  simp only
  split_ifs with h
  · simp only [Rect_.zero, Rect_.area, mul_zero]
    exact ⟨le_rfl, mul_nonneg haw hah, mul_nonneg hbw hbh⟩
  · push_neg at h
    obtain ⟨hw, hh⟩ := h
    simp only [Rect_.area]
    have w1 : min (a.x + a.width) (b.x + b.width) - max a.x b.x ≤ a.width := by
      have := min_le_left (a.x + a.width) (b.x + b.width)
      have := le_max_left a.x b.x
      omega
    have w2 : min (a.x + a.width) (b.x + b.width) - max a.x b.x ≤ b.width := by
      have := min_le_right (a.x + a.width) (b.x + b.width)
      have := le_max_right a.x b.x
      omega
    have h1 : min (a.y + a.height) (b.y + b.height) - max a.y b.y ≤ a.height := by
      have := min_le_left (a.y + a.height) (b.y + b.height)
      have := le_max_left a.y b.y
      omega
    have h2 : min (a.y + a.height) (b.y + b.height) - max a.y b.y ≤ b.height := by
      have := min_le_right (a.y + a.height) (b.y + b.height)
      have := le_max_right a.y b.y
      omega
    exact ⟨(mul_pos hw hh).le, mul_le_mul w1 h1 hh.le haw, mul_le_mul w2 h2 hh.le hbw⟩

/-- The overlap that `NMSBoxes` computes differs from the exact intersection
over union by at most `2 ^ (-22)`, for rectangles of non-negative size that
are not both empty. -/
theorem rectOverlap_near_exactIoU (a b : Rect) (haw : 0 ≤ a.width) (hah : 0 ≤ a.height)
    (hbw : 0 ≤ b.width) (hbh : 0 ≤ b.height) (hpos : 0 < a.area + b.area) :
    |rectOverlap a b - exactIoU a b| ≤ 1 / 2 ^ 22 := by
  obtain ⟨h0, h1, h2⟩ := Rect_.inter_area_bounds a b haw hah hbw hbh
  have hA : (0 : ℚ) ≤ (((a.inter b).area : Int) : ℚ) := by exact_mod_cast h0
  have hS : 2 * (((a.inter b).area : Int) : ℚ) ≤ (((a.area + b.area : Int)) : ℚ) := by
    have : 2 * (a.inter b).area ≤ a.area + b.area := by omega
    exact_mod_cast this
  have hp : (0 : ℚ) < (((a.area + b.area : Int)) : ℚ) := by exact_mod_cast hpos
  have := overlap_near _ _ hA hS hp
  unfold rectOverlap jaccardDistance exactIoU
  simp only
  rw [if_neg (not_le.mpr hpos)]
  exact this

/-- The float intersection with a rectangle at the origin has a non-negative
corner and size, and its right and bottom edges exceed those of that
rectangle by at most the relative rounding error. -/
theorem RectF.interF_bounds (a : RectF) (Wf Hf : ℚ) (hW : 0 ≤ toFloat (0 + Wf))
    (hH : 0 ≤ toFloat (0 + Hf)) :
    0 ≤ (a.interF ⟨0, 0, Wf, Hf⟩).x ∧ 0 ≤ (a.interF ⟨0, 0, Wf, Hf⟩).y ∧
    0 ≤ (a.interF ⟨0, 0, Wf, Hf⟩).width ∧ 0 ≤ (a.interF ⟨0, 0, Wf, Hf⟩).height ∧
    (a.interF ⟨0, 0, Wf, Hf⟩).x + (a.interF ⟨0, 0, Wf, Hf⟩).width ≤
      toFloat (0 + Wf) * (1 + 1 / 2 ^ 24) ∧
    (a.interF ⟨0, 0, Wf, Hf⟩).y + (a.interF ⟨0, 0, Wf, Hf⟩).height ≤
      toFloat (0 + Hf) * (1 + 1 / 2 ^ 24) := by
  have edge : ∀ (x s M : ℚ), 0 ≤ M →
      0 < toFloat (min (toFloat (x + s)) M - max x 0) →
      max x 0 + toFloat (min (toFloat (x + s)) M - max x 0) ≤ M * (1 + 1 / 2 ^ 24) := by
    intro x s M hM hpos
    have hx1 : (0 : ℚ) ≤ max x 0 := le_max_right _ _
    have hm : min (toFloat (x + s)) M ≤ M := min_le_right _ _
    have hdiff : 0 < min (toFloat (x + s)) M - max x 0 := by
      by_contra hneg
      have := roundToBits_nonpos 24 _ (not_lt.mp hneg)
      exact absurd hpos (not_lt.mpr this)
    have hr : toFloat (min (toFloat (x + s)) M - max x 0) ≤
        (min (toFloat (x + s)) M - max x 0) * (1 + 1 / 2 ^ 24) := roundToBits_le 24 _ hdiff
    have heps : (0 : ℚ) ≤ 1 / 2 ^ 24 := by positivity
    have h1 : (min (toFloat (x + s)) M - max x 0) * (1 / 2 ^ 24) ≤ M * (1 / 2 ^ 24) :=
      mul_le_mul_of_nonneg_right (by linarith) heps
    calc max x 0 + toFloat (min (toFloat (x + s)) M - max x 0)
        ≤ max x 0 + (min (toFloat (x + s)) M - max x 0) * (1 + 1 / 2 ^ 24) := by linarith
      _ = min (toFloat (x + s)) M + (min (toFloat (x + s)) M - max x 0) * (1 / 2 ^ 24) := by
          ring
      _ ≤ M + M * (1 / 2 ^ 24) := by linarith
      _ = M * (1 + 1 / 2 ^ 24) := by ring
  unfold RectF.interF
  simp only
  by_cases h : toFloat (min (toFloat (a.x + a.width)) (toFloat (0 + Wf)) - max a.x 0) ≤ 0 ∨
      toFloat (min (toFloat (a.y + a.height)) (toFloat (0 + Hf)) - max a.y 0) ≤ 0
  · simp only [h, if_true, Rect_.zero]
    have e : (0 : ℚ) ≤ 1 + 1 / 2 ^ 24 := by positivity
    refine ⟨le_rfl, le_rfl, le_rfl, le_rfl, ?_, ?_⟩
    · simpa using mul_nonneg hW e
    · simpa using mul_nonneg hH e
  · simp only [h, if_false]
    push_neg at h
    exact ⟨le_max_right _ _, le_max_right _ _, h.1.le, h.2.le,
      edge a.x a.width _ hW h.1, edge a.y a.height _ hH h.2⟩

/-! ## Lemmas on the NMS routine -/

/-- Every pair produced by the threshold filter names a score of the input
that is above the threshold. -/
theorem scoreIndexPairs_mem {thr : ℚ} : ∀ (scores : List ℚ) (k : Nat) (p : ℚ × Nat),
    p ∈ scoreIndexPairs thr scores k → k ≤ p.2 ∧ scores[p.2 - k]? = some p.1 ∧ thr < p.1
  | [], _, p, h => by simp [scoreIndexPairs] at h
  | s :: rest, k, p, h => by
    have rec_case : p ∈ scoreIndexPairs thr rest (k + 1) →
        k ≤ p.2 ∧ (s :: rest)[p.2 - k]? = some p.1 ∧ thr < p.1 := by
      intro hp
      obtain ⟨h1, h2, h3⟩ := scoreIndexPairs_mem rest (k + 1) p hp
      refine ⟨by omega, ?_, h3⟩
      have : p.2 - k = (p.2 - (k + 1)) + 1 := by omega
      rw [this, List.getElem?_cons_succ]
      exact h2
    unfold scoreIndexPairs at h
    by_cases hs : thr < s
    · rw [if_pos hs] at h
      rcases List.mem_cons.mp h with h | h
      · subst h
        simp [hs]
      · exact rec_case h
    · rw [if_neg hs] at h
      exact rec_case h

/-- The sorted pairs are a permutation of the filtered pairs. -/
theorem GetMaxScoreIndex_mem {scores : List ℚ} {thr : ℚ} {p : ℚ × Nat}
    (h : p ∈ GetMaxScoreIndex scores thr) : scores[p.2]? = some p.1 ∧ thr < p.1 := by
  unfold GetMaxScoreIndex at h
  have hp := ((List.perm_insertionSort scoreDescend _).mem_iff).mp h
  obtain ⟨_, h2, h3⟩ := scoreIndexPairs_mem scores 0 p hp
  exact ⟨by simpa using h2, h3⟩

/-- An index selected by the outer loop was selected before or comes from
the walked pairs. -/
theorem NMSFast_mem (bboxes : List Rect) (iou : ℚ) : ∀ (pairs : List (ℚ × Nat)) (acc : List Nat)
    (idx : Nat), idx ∈ NMSFast_ bboxes iou pairs acc → idx ∈ acc ∨ ∃ s, (s, idx) ∈ pairs
  | [], acc, idx, h => by
    left
    simpa [NMSFast_] using h
  | (s, i) :: rest, acc, idx, h => by
    unfold NMSFast_ at h
    by_cases hk : nmsKeep bboxes iou i acc = true
    · rw [if_pos hk] at h
      rcases NMSFast_mem bboxes iou rest _ idx h with h | ⟨s2, h⟩
      · rcases List.mem_append.mp h with h | h
        · exact Or.inl h
        · right
          refine ⟨s, ?_⟩
          have : idx = i := by simpa using h
          subst this
          exact List.mem_cons_self _ _
      · exact Or.inr ⟨s2, List.mem_cons_of_mem _ h⟩
    · rw [if_neg hk] at h
      rcases NMSFast_mem bboxes iou rest _ idx h with h | ⟨s2, h⟩
      · exact Or.inl h
      · exact Or.inr ⟨s2, List.mem_cons_of_mem _ h⟩

/-- Every index returned by `NMSBoxes` names a score above the threshold. -/
theorem NMSBoxes_mem {bboxes : List Rect} {scores : List ℚ} {thr iou : ℚ} {res : List Nat}
    (h : NMSBoxes bboxes scores thr iou = some res) {idx : Nat} (hi : idx ∈ res) :
    ∃ s, scores[idx]? = some s ∧ thr < s := by
  unfold NMSBoxes at h
  split at h
  · simp only [Option.some.injEq] at h
    subst h
    rcases NMSFast_mem _ _ _ _ _ hi with h | ⟨s, h⟩
    · simp at h
    · exact ⟨s, GetMaxScoreIndex_mem h⟩
  · simp at h

/-- The confidence of a candidate, read through the confidence vector. -/
theorem candAt_confidence {cands : List Candidate} {idx : Nat} {s : ℚ}
    (h : (cands.map (·.confidence))[idx]? = some s) : (candAt cands idx).confidence = s := by
  simp only [List.getElem?_map, Option.map_eq_some'] at h
  obtain ⟨c, hc, rfl⟩ := h
  simp [candAt, List.getD_eq_getElem?_getD, hc]

/-- The box vector read at an index is the box of the candidate there. -/
theorem boxes_getD (cands : List Candidate) (idx : Nat) :
    (cands.map (·.box)).getD idx Rect_.zero = (candAt cands idx).box :=
  List.getD_map (l := cands) (d := (⟨0, 0, Rect_.zero, []⟩ : Candidate)) (n := idx) (·.box)

/-- The selected indices are pairwise within the overlap threshold: a later
one overlaps every earlier one by at most `iou`. -/
theorem NMSFast_pairwise (bboxes : List Rect) (iou : ℚ) :
    ∀ (pairs : List (ℚ × Nat)) (acc : List Nat),
    acc.Pairwise (fun i j =>
      rectOverlap (bboxes.getD j Rect_.zero) (bboxes.getD i Rect_.zero) ≤ iou) →
    (NMSFast_ bboxes iou pairs acc).Pairwise (fun i j =>
      rectOverlap (bboxes.getD j Rect_.zero) (bboxes.getD i Rect_.zero) ≤ iou)
  | [], acc, h => by simpa [NMSFast_] using h
  | (s, idx) :: rest, acc, h => by
    unfold NMSFast_
    by_cases hk : nmsKeep bboxes iou idx acc = true
    · rw [if_pos hk]
      apply NMSFast_pairwise bboxes iou rest
      rw [List.pairwise_append]
      refine ⟨h, List.pairwise_singleton _ _, ?_⟩
      intro a ha b hb
      have hb2 : b = idx := by simpa using hb
      subst hb2
      simp only [nmsKeep, List.all_eq_true, decide_eq_true_eq] at hk
      exact hk a ha
    · rw [if_neg hk]
      exact NMSFast_pairwise bboxes iou rest acc h

/-- The indices `NMSBoxes` returns are pairwise within the overlap
threshold. -/
theorem NMSBoxes_pairwise {boxes : List Rect} {scores : List ℚ} {thr iou : ℚ} {res : List Nat}
    (h : NMSBoxes boxes scores thr iou = some res) :
    res.Pairwise (fun i j =>
      rectOverlap (boxes.getD j Rect_.zero) (boxes.getD i Rect_.zero) ≤ iou) := by
  unfold NMSBoxes at h
  split at h
  · simp only [Option.some.injEq] at h
    subst h
    exact NMSFast_pairwise boxes iou _ [] List.Pairwise.nil
  · simp at h

/-- The outer loop only appends, and what it appends is a sublist of the
walked indices. -/
theorem NMSFast_sublist (bboxes : List Rect) (iou : ℚ) :
    ∀ (pairs : List (ℚ × Nat)) (acc : List Nat),
    ∃ l, NMSFast_ bboxes iou pairs acc = acc ++ l ∧ l.Sublist (pairs.map Prod.snd)
  | [], acc => ⟨[], by simp [NMSFast_]⟩
  | (s, idx) :: rest, acc => by
    unfold NMSFast_
    by_cases hk : nmsKeep bboxes iou idx acc = true
    · rw [if_pos hk]
      obtain ⟨l, hl, hsub⟩ := NMSFast_sublist bboxes iou rest (acc ++ [idx])
      refine ⟨idx :: l, by simpa using hl, ?_⟩
      simpa using hsub
    · rw [if_neg hk]
      obtain ⟨l, hl, hsub⟩ := NMSFast_sublist bboxes iou rest acc
      exact ⟨l, hl, by simpa using hsub.cons idx⟩

/-- Every result of the Segment result loop comes from a selected index. -/
theorem masks_results_mem {Proto : Type} (pipeline : MaskPipeline Proto) (proto : Proto)
    (image_info : ImageInfo) (cands : List Candidate) (mt : ℚ) :
    ∀ (l : List Nat) (out : List YoloResults),
      masks_results pipeline proto image_info cands mt l = some out →
      ∀ d ∈ out, ∃ idx ∈ l,
        d.class_idx = (candAt cands idx).class_id ∧
        d.conf = (candAt cands idx).confidence ∧
        d.bbox = (clipToImage image_info (candAt cands idx).box).toF ∧
        _get_mask2 pipeline (candAt cands idx).mask proto image_info
          (clipToImage image_info (candAt cands idx).box) mt = some d.mask
  | [], out, h, d, hd => by
    simp only [masks_results, Option.some.injEq] at h
    subst h
    simp at hd
  | idx :: rest, out, h, d, hd => by
    unfold masks_results at h
    simp only at h
    split at h
    · simp at h
    · rename_i mask hmask
      split at h
      · simp at h
      · rename_i out2 hrest
        simp only [Option.some.injEq] at h
        subst h
        rcases List.mem_cons.mp hd with hd | hd
        · subst hd
          exact ⟨idx, List.mem_cons_self _ _, rfl, rfl, rfl, hmask⟩
        · obtain ⟨i, hi, hprops⟩ := masks_results_mem pipeline proto image_info cands mt rest out2 hrest d hd
          exact ⟨i, List.mem_cons_of_mem _ hi, hprops⟩

/-- Every result of the Detect decoder comes from an index selected by NMS. -/
theorem postprocess_detects_mem {scale_boxes : ScaleBoxes} {cvSize : Size} {output0 : Mat}
    {image_info : ImageInfo} {output : List YoloResults} {nc : Nat} {thr iou : ℚ}
    {out : List YoloResults}
    (h : postprocess_detects scale_boxes cvSize output0 image_info output nc thr iou = some out)
    {d : YoloResults} (hd : d ∈ out) :
    ∃ cands res idx, cands = detect_rows scale_boxes cvSize image_info output0.data nc thr
        output0.rows 0 ∧
      NMSBoxes (cands.map (·.box)) (cands.map (·.confidence)) thr iou = some res ∧
      idx ∈ res ∧ d = detect_result image_info cands idx := by
  unfold postprocess_detects at h
  simp only at h
  split at h
  · simp at h
  · rename_i res hres
    simp only [Option.some.injEq] at h
    subst h
    obtain ⟨idx, hidx, rfl⟩ := List.mem_map.mp hd
    exact ⟨_, res, idx, rfl, hres, hidx, rfl⟩

/-- Every result of the Segment decoder comes from an index selected by NMS. -/
theorem postprocess_masks_mem {Proto : Type} {scale_boxes : ScaleBoxes} {cvSize : Size}
    {pipeline : MaskPipeline Proto} {output0 : Mat} {proto : Option Proto}
    {image_info : ImageInfo} {output : List YoloResults} {nc : Nat} {thr iou : ℚ} {mfn : Nat}
    {mt : ℚ} {out : List YoloResults}
    (h : postprocess_masks scale_boxes cvSize pipeline output0 proto image_info output nc thr iou
      mfn mt = some out) {d : YoloResults} (hd : d ∈ out) :
    ∃ cands res idx pr, cands = masks_rows scale_boxes cvSize image_info output0.data nc thr mfn
        output0.rows 0 ∧
      NMSBoxes (cands.map (·.box)) (cands.map (·.confidence)) thr iou = some res ∧
      idx ∈ res ∧ proto = some pr ∧
      d.class_idx = (candAt cands idx).class_id ∧
      d.conf = (candAt cands idx).confidence ∧
      d.bbox = (clipToImage image_info (candAt cands idx).box).toF ∧
      _get_mask2 pipeline (candAt cands idx).mask pr image_info
        (clipToImage image_info (candAt cands idx).box) mt = some d.mask := by
  unfold postprocess_masks at h
  simp only at h
  split at h
  · simp at h
  · rename_i res hres
    split at h
    · simp at h
    · rename_i pr
      obtain ⟨idx, hidx, hprops⟩ := masks_results_mem pipeline pr image_info _ mt res out h d hd
      exact ⟨_, res, idx, pr, rfl, hres, hidx, rfl, hprops⟩

/-! ## C1: confidence above the threshold -/

/-- C1: every Detection returned by `postprocess_detects` and by
`postprocess_masks` has a confidence strictly greater than the confidence
threshold of the caller; a single row whose maximum class score equals the
threshold yields no Detection; and `postprocess_detects` does return for
non-negative thresholds. -/
theorem confidence_above_threshold {Proto : Type} (scale_boxes : ScaleBoxes) (cvSize : Size)
    (pipeline : MaskPipeline Proto) (output0 : Mat) (proto : Option Proto)
    (image_info : ImageInfo) (output : List YoloResults) (nc : Nat) (thr iou : ℚ) (mfn : Nat)
    (mt : ℚ) :
    (∀ out, postprocess_detects scale_boxes cvSize output0 image_info output nc thr iou = some out →
      ∀ d ∈ out, thr < d.conf) ∧
    (∀ out, postprocess_masks scale_boxes cvSize pipeline output0 proto image_info output nc thr
      iou mfn mt = some out → ∀ d ∈ out, thr < d.conf) ∧
    (output0.rows = 1 → (minMaxLoc (rowScores output0.data nc 0)).1 = thr →
      (∀ out, postprocess_detects scale_boxes cvSize output0 image_info output nc thr iou =
        some out → out = []) ∧
      (∀ out, postprocess_masks scale_boxes cvSize pipeline output0 proto image_info output nc thr
        iou mfn mt = some out → out = [])) ∧
    (0 ≤ thr → 0 ≤ iou →
      (postprocess_detects scale_boxes cvSize output0 image_info output nc thr iou).isSome =
        true) := by
  refine ⟨?_, ?_, ?_, ?_⟩
  rotate_left 3
  · intro h1 h2
    simp [postprocess_detects, NMSBoxes, h1, h2]
  · intro out h d hd
    obtain ⟨cands, res, idx, _, hres, hidx, rfl⟩ := postprocess_detects_mem h hd
    obtain ⟨s, hs, hlt⟩ := NMSBoxes_mem hres hidx
    simpa [detect_result, candAt_confidence hs] using hlt
  · intro out h d hd
    obtain ⟨cands, res, idx, pr, _, hres, hidx, _, _, hconf, _, _⟩ := postprocess_masks_mem h hd
    obtain ⟨s, hs, hlt⟩ := NMSBoxes_mem hres hidx
    rw [hconf, candAt_confidence hs]
    exact hlt
  · intro hrows hmax
    constructor
    · intro out h
      by_contra hne
      obtain ⟨d, hd⟩ := List.exists_mem_of_ne_nil out hne
      obtain ⟨cands, res, idx, hc, hres, hidx, _⟩ := postprocess_detects_mem h hd
      obtain ⟨s, hs, _⟩ := NMSBoxes_mem hres hidx
      rw [hc, hrows] at hs
      simp [detect_rows, hmax] at hs
    · intro out h
      by_contra hne
      obtain ⟨d, hd⟩ := List.exists_mem_of_ne_nil out hne
      obtain ⟨cands, res, idx, pr, hc, hres, hidx, _⟩ := postprocess_masks_mem h hd
      obtain ⟨s, hs, _⟩ := NMSBoxes_mem hres hidx
      rw [hc, hrows] at hs
      simp [masks_rows, hmax] at hs

/-- C1 at a concrete tensor: of two rows scoring 0.9 and exactly the
threshold 0.5, only the first yields a Detection. -/
theorem confidence_above_threshold_witness :
    postprocess_detects (scale_boxes_spec unitGeometry) ⟨640, 640⟩
        ⟨2, 5, [10, 10, 20, 20, 9 / 10, 300, 300, 20, 20, 1 / 2]⟩ image640 [] 1 (1 / 2) (1 / 2) =
      some [⟨0, 9 / 10, ⟨0, 0, 20, 20⟩, MaskMat.none, []⟩] ∧
    ∀ d ∈ [(⟨0, 9 / 10, ⟨0, 0, 20, 20⟩, MaskMat.none, []⟩ : YoloResults)], (1 / 2 : ℚ) < d.conf :=
  ⟨by decide!,
   (confidence_above_threshold (scale_boxes_spec unitGeometry) ⟨640, 640⟩ constPipeline
      ⟨2, 5, [10, 10, 20, 20, 9 / 10, 300, 300, 20, 20, 1 / 2]⟩ (some ()) image640 [] 1 (1 / 2)
      (1 / 2) 0 (1 / 2)).1 _ (by decide!)⟩

/-! ## C2: boxes clipped to the image -/

/-- C2, the claim as stated fails for Pose: the box `(0.1f, 0, 1000, 10)`
intersected in `float` with the 640 x 640 image gets the width
`fl(640 - 0.1f) = 639.9000244140625`, so that `x + width` is
`640.0000244...`, above `W = 640`. -/
theorem bbox_clipped_counterexample :
    postprocess_kpts sampleNmsWide scaleTenth (fun _ k _ => k) ⟨6400, 6400⟩ ⟨0, 0, []⟩ image640
        [] 1 (1 / 2) (1 / 2) =
      some [⟨0, 9 / 10, ⟨13421773 / 134217728, 0, 5242061 / 8192, 10⟩, MaskMat.none, []⟩] ∧
    (640 : ℚ) < 13421773 / 134217728 + 5242061 / 8192 ∧
    ¬ insideImage image640 ⟨13421773 / 134217728, 0, 5242061 / 8192, 10⟩ := by
  refine ⟨by decide!, by norm_num, ?_⟩
  intro h
  have := h.2.2.2.2.1
  norm_num [image640] at this

/-- C2 as amended: every Detection returned by the Detect and Segment
decoders has its box inside the original image of size `W x H`: `x ≥ 0`,
`y ≥ 0`, `width ≥ 0`, `height ≥ 0`, `x + width ≤ W` and `y + height ≤ H`.
Every Detection returned by the Pose decoder (which appends to the result
list that `predict_once` hands over empty) has `x ≥ 0`, `y ≥ 0`, `width ≥ 0`,
`height ≥ 0`, `x + width ≤ W (1 + 2 ^ (-24))` and
`y + height ≤ H (1 + 2 ^ (-24))`, for `W` and `H` representable in `float`:
its box is intersected in single precision and the rounded size can carry
the edge past the image by a rounding error. -/
theorem bbox_clipped_to_image {Proto : Type} (non_max_suppression : NonMaxSuppression)
    (scale_boxes : ScaleBoxes) (scale_coords : ScaleCoords) (cvSize : Size)
    (pipeline : MaskPipeline Proto) (output0 : Mat) (proto : Option Proto)
    (image_info : ImageInfo) (output : List YoloResults) (nc : Nat) (thr iou : ℚ) (mfn : Nat)
    (mt : ℚ) (hW : 0 ≤ image_info.raw_size.width) (hH : 0 ≤ image_info.raw_size.height) :
    (∀ out, postprocess_detects scale_boxes cvSize output0 image_info output nc thr iou = some out →
      ∀ d ∈ out, insideImage image_info d.bbox) ∧
    (∀ out, postprocess_masks scale_boxes cvSize pipeline output0 proto image_info output nc thr
      iou mfn mt = some out → ∀ d ∈ out, insideImage image_info d.bbox) ∧
    (toFloat (image_info.raw_size.width : ℚ) = (image_info.raw_size.width : ℚ) →
      toFloat (image_info.raw_size.height : ℚ) = (image_info.raw_size.height : ℚ) →
      ∀ out, postprocess_kpts non_max_suppression scale_boxes scale_coords cvSize output0
        image_info [] nc thr iou = some out →
      ∀ d ∈ out, insideImageUpToRounding image_info d.bbox) := by
  refine ⟨?_, ?_, ?_⟩
  · intro out h d hd
    obtain ⟨cands, res, idx, _, _, _, rfl⟩ := postprocess_detects_mem h hd
    exact clipToImage_bounds image_info _ hW hH
  · intro out h d hd
    obtain ⟨cands, res, idx, pr, _, _, _, _, _, _, hbox, _⟩ := postprocess_masks_mem h hd
    rw [hbox]
    exact clipToImage_bounds image_info _ hW hH
  · intro hWf hHf out h d hd
    unfold postprocess_kpts at h
    split at h
    · simp at h
    · rename_i boxes confidences class_ids rest _
      simp only [List.nil_append, Option.some.injEq] at h
      subst h
      obtain ⟨i, _, rfl⟩ := List.mem_map.mp hd
      have hWq : (0 : ℚ) ≤ (image_info.raw_size.width : ℚ) := by exact_mod_cast hW
      have hHq : (0 : ℚ) ≤ (image_info.raw_size.height : ℚ) := by exact_mod_cast hH
      have eW : toFloat (0 + toFloat (image_info.raw_size.width : ℚ)) =
          (image_info.raw_size.width : ℚ) := by rw [zero_add, hWf, hWf]
      have eH : toFloat (0 + toFloat (image_info.raw_size.height : ℚ)) =
          (image_info.raw_size.height : ℚ) := by rw [zero_add, hHf, hHf]
      have hb := RectF.interF_bounds
        (scale_boxes cvSize (boxes.getD i Rect_.zero).toF image_info.raw_size)
        (toFloat (image_info.raw_size.width : ℚ)) (toFloat (image_info.raw_size.height : ℚ))
        (by rw [eW]; exact hWq) (by rw [eH]; exact hHq)
      rw [eW, eH] at hb
      exact hb

/-- C2, amended, at a concrete Pose input: a box sticking out of a 640 x 640
image is returned clipped. -/
theorem bbox_clipped_to_image_witness :
    ((0 : Int) ≤ image640.raw_size.width ∧ (0 : Int) ≤ image640.raw_size.height ∧
      toFloat (image640.raw_size.width : ℚ) = (image640.raw_size.width : ℚ) ∧
      toFloat (image640.raw_size.height : ℚ) = (image640.raw_size.height : ℚ)) ∧
    postprocess_kpts sampleNms (scale_boxes_spec unitGeometry) (fun _ k _ => k) ⟨640, 640⟩
        ⟨0, 0, []⟩ image640 [] 1 (1 / 2) (1 / 2) =
      some [⟨0, 9 / 10, ⟨600, 0, 40, 90⟩, MaskMat.none, [1, 2, 3]⟩] ∧
    ∀ d ∈ [(⟨0, 9 / 10, ⟨600, 0, 40, 90⟩, MaskMat.none, [1, 2, 3]⟩ : YoloResults)],
      insideImageUpToRounding image640 d.bbox :=
  ⟨⟨by decide, by decide, by decide!, by decide!⟩, by decide!,
   (bbox_clipped_to_image sampleNms (scale_boxes_spec unitGeometry) (fun _ k _ => k) ⟨640, 640⟩
      constPipeline ⟨0, 0, []⟩ (some ()) image640 [] 1 (1 / 2) (1 / 2) 0 (1 / 2)
      (by decide) (by decide)).2.2 (by decide!) (by decide!) _ (by decide!)⟩

/-! ## C3: the Detect scenario -/

/-- The maximum search keeps its best value when no later score exceeds it. -/
theorem maxLocAux_of_le : ∀ (l : List ℚ) (i : Nat) (best : ℚ) (bi : Nat),
    (∀ x ∈ l, x ≤ best) → maxLocAux l i best bi = (best, bi)
  | [], _, _, _, _ => rfl
  | s :: rest, i, best, bi, h => by
    have hs : ¬ best < s := not_lt.mpr (h s (List.mem_cons_self _ _))
    unfold maxLocAux
    rw [if_neg hs]
    exact maxLocAux_of_le rest (i + 1) best bi fun x hx => h x (List.mem_cons_of_mem _ hx)

/-- A score that beats the two before it and all after it is found at
position 2. -/
theorem minMaxLoc_third (a b m : ℚ) (post : List ℚ) (ha : a < m) (hb : b < m)
    (hpost : ∀ x ∈ post, x < m) : minMaxLoc (a :: b :: m :: post) = (m, 2) := by
  have hle : ∀ x ∈ post, x ≤ m := fun x hx => (hpost x hx).le
  unfold minMaxLoc
  simp only
  by_cases hab : a < b
  · simp [maxLocAux, hab, hb, maxLocAux_of_le post 3 m 2 hle]
  · simp [maxLocAux, hab, ha, maxLocAux_of_le post 3 m 2 hle]

/-- The score slots of the first row are the entries after the four box
values. -/
theorem rowScores_first_row (x0 x1 x2 x3 : ℚ) (l : List ℚ) (nc : Nat) (h : nc = l.length) :
    rowScores (x0 :: x1 :: x2 :: x3 :: l) nc 0 = l := by
  subst h
  apply List.ext_getElem
  · simp [rowScores]
  · intro i h1 h2
    have e : 0 + 4 + i = i + 1 + 1 + 1 + 1 := by omega
    simp [rowScores, e, List.getD_eq_getElem?_getD, List.getElem?_eq_getElem h2]

/-- The tie 75.5 rounds to the even 76. -/
theorem cvRound_151_half : cvRound (151 / 2) = 76 := by decide!

/-- The tie 50.5 rounds to the even 50. -/
theorem cvRound_101_half : cvRound (101 / 2) = 50 := by decide!

/-- Box decode of the scenario row `(100, 100, 50, 50)`. -/
theorem detect_box_scenario (cvSize : Size) (image_info : ImageInfo) (rest : List ℚ) :
    detect_box (scale_boxes_spec unitGeometry) cvSize image_info
      (100 :: 100 :: 50 :: 50 :: rest) 0 = ⟨76, 76, 50, 50⟩ := by
  have e1 : max ((100 : ℚ) - 1 / 2 * 50 + 1 / 2) 0 = 151 / 2 := by norm_num
  have e2 : (50 : ℚ) + 1 / 2 = 101 / 2 := by norm_num
  simp only [detect_box, scale_boxes_spec, unitGeometry, RectF.toRect, List.getD_cons_zero,
    List.getD_cons_succ, zero_add, e1, e2, sub_zero, div_one, cvRound_151_half, cvRound_101_half]


/-- A single candidate above the threshold is selected. -/
theorem NMSBoxes_single (box : Rect) (s thr iou : ℚ) (h0 : 0 ≤ thr) (hs : thr < s)
    (hiou : 0 ≤ iou) : NMSBoxes [box] [s] thr iou = some [0] := by
  simp [NMSBoxes, h0, hiou, GetMaxScoreIndex, scoreIndexPairs, hs, NMSFast_, nmsKeep]

/-- C3, the claim as stated fails: for the threshold `-0.1`, which is below
0.9, the call throws in `NMSBoxes` instead of yielding a Detection; and for
the threshold 0.25 the box is `(76, 76, 50, 50)`, whose top-left is not the
centre minus half the size, `100 - 50 / 2 = 75`. -/
theorem detect_scenario_counterexample :
    ((-1 / 10 : ℚ) < 9 / 10 ∧
      postprocess_detects (scale_boxes_spec unitGeometry) ⟨640, 640⟩ scenarioDetectTensor image640
        [] 3 (-1 / 10) (1 / 2) = none) ∧
    ((1 / 4 : ℚ) < 9 / 10 ∧
      (postprocess_detects (scale_boxes_spec unitGeometry) ⟨640, 640⟩ scenarioDetectTensor
        image640 [] 3 (1 / 4) (1 / 2)).map (List.map YoloResults.core) =
        some [(2, 9 / 10, ⟨76, 76, 50, 50⟩)] ∧
      (76 : ℚ) ≠ 100 - 50 / 2) := by
  refine ⟨⟨by norm_num, by decide!⟩, by norm_num, by decide!, by norm_num⟩

/-- C3 as amended: for a tensor of one row with box
`(cx, cy, w, h) = (100, 100, 50, 50)` whose class 2 scores 0.9 and every other
class less, with scale factor 1, padding `(0, 0)` and network and original
size 640 x 640, `postprocess_detects` yields exactly one Detection, of class 2
and confidence 0.9, whose box has the raw width 50 and height 50, for every
confidence threshold in `[0, 0.9)` and every non-negative IoU threshold; for
a negative threshold the call throws. The statement is silent on the
top-left corner of the box. -/
theorem detect_single_row_scenario (a b : ℚ) (post : List ℚ) (thr iou : ℚ)
    (output : List YoloResults) (ha : a < 9 / 10) (hb : b < 9 / 10)
    (hpost : ∀ x ∈ post, x < 9 / 10) :
    (0 ≤ thr → thr < 9 / 10 → 0 ≤ iou →
      ∃ d : YoloResults,
        postprocess_detects (scale_boxes_spec unitGeometry) ⟨640, 640⟩
            ⟨1, 7 + post.length, 100 :: 100 :: 50 :: 50 :: a :: b :: 9 / 10 :: post⟩ image640
            output (3 + post.length) thr iou = some [d] ∧
          d.class_idx = 2 ∧ d.conf = 9 / 10 ∧ d.bbox.width = 50 ∧ d.bbox.height = 50) ∧
    (thr < 0 ∨ iou < 0 →
      postprocess_detects (scale_boxes_spec unitGeometry) ⟨640, 640⟩
          ⟨1, 7 + post.length, 100 :: 100 :: 50 :: 50 :: a :: b :: 9 / 10 :: post⟩ image640
          output (3 + post.length) thr iou = none) := by
  constructor
  · intro hthr0 hthr hiou
    refine ⟨⟨2, 9 / 10, ⟨76, 76, 50, 50⟩, MaskMat.none, []⟩, ?_, rfl, rfl, rfl, rfl⟩
    have hsc : rowScores (100 :: 100 :: 50 :: 50 :: a :: b :: 9 / 10 :: post)
        (3 + post.length) 0 = a :: b :: 9 / 10 :: post :=
      rowScores_first_row _ _ _ _ _ _ (by simp; omega)
    have hmm := minMaxLoc_third a b (9 / 10) post ha hb hpost
    have hclip : clipToImage image640 ⟨76, 76, 50, 50⟩ = ⟨76, 76, 50, 50⟩ := by decide
    unfold postprocess_detects
    simp only [detect_rows, hsc, hmm, hthr, if_true, detect_box_scenario, List.map_cons,
      List.map_nil, NMSBoxes_single _ _ _ _ hthr0 hthr hiou]
    simp [detect_result, candAt, hclip, Rect.toF]
  · intro hneg
    have hn : ¬ (0 ≤ thr ∧ 0 ≤ iou) := by
      rintro ⟨h1, h2⟩
      rcases hneg with h | h
      · exact absurd h1 (not_le.mpr h)
      · exact absurd h2 (not_le.mpr h)
    simp [postprocess_detects, NMSBoxes, hn]

/-- C3, amended, at a concrete tensor of four classes and threshold 0.25. -/
theorem detect_single_row_scenario_witness :
    ((1 / 10 : ℚ) < 9 / 10 ∧ (2 / 10 : ℚ) < 9 / 10 ∧ (0 : ℚ) ≤ 1 / 4 ∧ (1 / 4 : ℚ) < 9 / 10 ∧
      (0 : ℚ) ≤ 1 / 2) ∧
    ∃ d : YoloResults,
      postprocess_detects (scale_boxes_spec unitGeometry) ⟨640, 640⟩
          ⟨1, 7 + [(3 / 10 : ℚ)].length,
            100 :: 100 :: 50 :: 50 :: 1 / 10 :: 2 / 10 :: 9 / 10 :: [3 / 10]⟩ image640 []
          (3 + [(3 / 10 : ℚ)].length) (1 / 4) (1 / 2) = some [d] ∧
        d.class_idx = 2 ∧ d.conf = 9 / 10 ∧ d.bbox.width = 50 ∧ d.bbox.height = 50 :=
  ⟨by norm_num,
   (detect_single_row_scenario (1 / 10) (2 / 10) [3 / 10] (1 / 4) (1 / 2) [] (by norm_num)
    (by norm_num) (by simp; norm_num)).1 (by norm_num) (by norm_num) (by norm_num)⟩

/-! ## C4: the NMS boundary -/

/-- The Detect box decode reads the four box values only. -/
theorem detect_box_agree (scale_boxes : ScaleBoxes) (cvSize : Size) (image_info : ImageInfo)
    (d1 d2 : List ℚ) (off : Nat) (h : ∀ k < 4, d1.getD (off + k) 0 = d2.getD (off + k) 0) :
    detect_box scale_boxes cvSize image_info d1 off =
      detect_box scale_boxes cvSize image_info d2 off := by
  have h0 := h 0 (by omega)
  have h1 := h 1 (by omega)
  have h2 := h 2 (by omega)
  have h3 := h 3 (by omega)
  rw [Nat.add_zero] at h0
  unfold detect_box
  rw [h0, h1, h2, h3]

/-- The Segment box decode reads the four box values only. -/
theorem masks_box_agree (scale_boxes : ScaleBoxes) (cvSize : Size) (image_info : ImageInfo)
    (d1 d2 : List ℚ) (off : Nat) (h : ∀ k < 4, d1.getD (off + k) 0 = d2.getD (off + k) 0) :
    masks_box scale_boxes cvSize image_info d1 off =
      masks_box scale_boxes cvSize image_info d2 off := by
  have h0 := h 0 (by omega)
  have h1 := h 1 (by omega)
  have h2 := h 2 (by omega)
  have h3 := h 3 (by omega)
  rw [Nat.add_zero] at h0
  unfold masks_box
  rw [h0, h1, h2, h3]

/-- Buffers that agree on boxes and maximum scores give Detect candidates
with the same confidences and boxes. -/
theorem detect_rows_agree (scale_boxes : ScaleBoxes) (cvSize : Size) (image_info : ImageInfo)
    (d1 d2 : List ℚ) (nc : Nat) (thr : ℚ) : ∀ (n off : Nat),
    (∀ i < n, (∀ k < 4, d1.getD (off + i * (nc + 4) + k) 0 = d2.getD (off + i * (nc + 4) + k) 0) ∧
      (minMaxLoc (rowScores d1 nc (off + i * (nc + 4)))).1 =
        (minMaxLoc (rowScores d2 nc (off + i * (nc + 4)))).1) →
    (detect_rows scale_boxes cvSize image_info d1 nc thr n off).map Candidate.confBox =
      (detect_rows scale_boxes cvSize image_info d2 nc thr n off).map Candidate.confBox
  | 0, _, _ => rfl
  | n + 1, off, h => by
    have hrow := h 0 (Nat.succ_pos n)
    simp only [Nat.zero_mul, Nat.add_zero] at hrow
    have hbox := detect_box_agree scale_boxes cvSize image_info d1 d2 off hrow.1
    have ih := detect_rows_agree scale_boxes cvSize image_info d1 d2 nc thr n (off + (nc + 4))
      (fun i hi => by
        have := h (i + 1) (Nat.succ_lt_succ hi)
        have e : off + (i + 1) * (nc + 4) = off + (nc + 4) + i * (nc + 4) := by
          rw [Nat.succ_mul]; omega
        rw [e] at this
        exact this)
    unfold detect_rows
    simp only
    rw [← hrow.2]
    by_cases hp : thr < (minMaxLoc (rowScores d1 nc off)).1
    · simp only [hp, if_true, List.map_cons, ih, Candidate.confBox, hbox]
    · simp only [hp, if_false, ih]


/-- Buffers that agree on boxes and maximum scores give Segment candidates
with the same confidences and boxes. -/
theorem masks_rows_agree (scale_boxes : ScaleBoxes) (cvSize : Size) (image_info : ImageInfo)
    (d1 d2 : List ℚ) (nc : Nat) (thr : ℚ) (mfn : Nat) : ∀ (n off : Nat),
    (∀ i < n, (∀ k < 4, d1.getD (off + i * (nc + 4 + mfn) + k) 0 =
        d2.getD (off + i * (nc + 4 + mfn) + k) 0) ∧
      (minMaxLoc (rowScores d1 nc (off + i * (nc + 4 + mfn)))).1 =
        (minMaxLoc (rowScores d2 nc (off + i * (nc + 4 + mfn)))).1) →
    (masks_rows scale_boxes cvSize image_info d1 nc thr mfn n off).map Candidate.confBox =
      (masks_rows scale_boxes cvSize image_info d2 nc thr mfn n off).map Candidate.confBox
  | 0, _, _ => rfl
  | n + 1, off, h => by
    have hrow := h 0 (Nat.succ_pos n)
    simp only [Nat.zero_mul, Nat.add_zero] at hrow
    have hbox := masks_box_agree scale_boxes cvSize image_info d1 d2 off hrow.1
    have ih := masks_rows_agree scale_boxes cvSize image_info d1 d2 nc thr mfn n
      (off + (nc + 4 + mfn))
      (fun i hi => by
        have := h (i + 1) (Nat.succ_lt_succ hi)
        have e : off + (i + 1) * (nc + 4 + mfn) = off + (nc + 4 + mfn) + i * (nc + 4 + mfn) := by
          rw [Nat.succ_mul]; omega
        rw [e] at this
        exact this)
    unfold masks_rows
    simp only
    rw [← hrow.2]
    by_cases hp : thr < (minMaxLoc (rowScores d1 nc off)).1
    · simp only [hp, if_true, List.map_cons, ih, Candidate.confBox, hbox]
    · simp only [hp, if_false, ih]

/-- Candidate lists with the same confidences and boxes have the same
confidence vector, the same box vector and agree at every index. -/
theorem confBox_eq {c1 c2 : List Candidate}
    (h : c1.map Candidate.confBox = c2.map Candidate.confBox) :
    c1.map (·.confidence) = c2.map (·.confidence) ∧ c1.map (·.box) = c2.map (·.box) ∧
      ∀ idx, (candAt c1 idx).confidence = (candAt c2 idx).confidence ∧
        (candAt c1 idx).box = (candAt c2 idx).box := by
  refine ⟨?_, ?_, ?_⟩
  · have := congrArg (List.map Prod.fst) h
    simpa [List.map_map, Function.comp_def, Candidate.confBox] using this
  · have := congrArg (List.map Prod.snd) h
    simpa [List.map_map, Function.comp_def, Candidate.confBox] using this
  · intro idx
    have e1 := List.getD_map (l := c1) (d := (⟨0, 0, Rect_.zero, []⟩ : Candidate)) (n := idx)
      Candidate.confBox
    have e2 := List.getD_map (l := c2) (d := (⟨0, 0, Rect_.zero, []⟩ : Candidate)) (n := idx)
      Candidate.confBox
    rw [h] at e1
    have e3 := e1.symm.trans e2
    simp only [Candidate.confBox, Prod.mk.injEq] at e3
    exact e3

/-- The confidences and boxes of the Segment results are those of the
selected candidates, in selection order. -/
theorem masks_results_map {Proto : Type} (pipeline : MaskPipeline Proto) (proto : Proto)
    (image_info : ImageInfo) (cands : List Candidate) (mt : ℚ) :
    ∀ (l : List Nat) (out : List YoloResults),
      masks_results pipeline proto image_info cands mt l = some out →
      out.map (fun d => (d.conf, d.bbox)) =
        l.map (fun idx => ((candAt cands idx).confidence,
          (clipToImage image_info (candAt cands idx).box).toF))
  | [], out, h => by
    simp only [masks_results, Option.some.injEq] at h
    subst h
    rfl
  | idx :: rest, out, h => by
    unfold masks_results at h
    simp only at h
    split at h
    · simp at h
    · split at h
      · simp at h
      · rename_i out2 hrest
        simp only [Option.some.injEq] at h
        subst h
        simp only [List.map_cons]
        rw [masks_results_map pipeline proto image_info cands mt rest out2 hrest]

/-- Buffers that agree on boxes, maximum scores and mask coefficients give
Segment candidates that differ in their classes only. -/
theorem masks_rows_agree_noClass (scale_boxes : ScaleBoxes) (cvSize : Size)
    (image_info : ImageInfo) (d1 d2 : List ℚ) (nc : Nat) (thr : ℚ) (mfn : Nat) :
    ∀ (n off : Nat),
    (∀ i < n, (∀ k < 4, d1.getD (off + i * (nc + 4 + mfn) + k) 0 =
        d2.getD (off + i * (nc + 4 + mfn) + k) 0) ∧
      (minMaxLoc (rowScores d1 nc (off + i * (nc + 4 + mfn)))).1 =
        (minMaxLoc (rowScores d2 nc (off + i * (nc + 4 + mfn)))).1 ∧
      (∀ j < mfn, d1.getD (off + i * (nc + 4 + mfn) + 4 + nc + j) 0 =
        d2.getD (off + i * (nc + 4 + mfn) + 4 + nc + j) 0)) →
    (masks_rows scale_boxes cvSize image_info d1 nc thr mfn n off).map Candidate.noClass =
      (masks_rows scale_boxes cvSize image_info d2 nc thr mfn n off).map Candidate.noClass
  | 0, _, _ => rfl
  | n + 1, off, h => by
    have hrow := h 0 (Nat.succ_pos n)
    simp only [Nat.zero_mul, Nat.add_zero] at hrow
    have hbox := masks_box_agree scale_boxes cvSize image_info d1 d2 off hrow.1
    have hmask : ((List.range mfn).map fun j => d1.getD (off + 4 + nc + j) 0) =
        ((List.range mfn).map fun j => d2.getD (off + 4 + nc + j) 0) := by
      apply List.map_congr_left
      intro j hj
      exact hrow.2.2 j (List.mem_range.mp hj)
    have ih := masks_rows_agree_noClass scale_boxes cvSize image_info d1 d2 nc thr mfn n
      (off + (nc + 4 + mfn))
      (fun i hi => by
        have := h (i + 1) (Nat.succ_lt_succ hi)
        have e : off + (i + 1) * (nc + 4 + mfn) = off + (nc + 4 + mfn) + i * (nc + 4 + mfn) := by
          rw [Nat.succ_mul]; omega
        rw [e] at this
        exact this)
    unfold masks_rows
    simp only
    rw [← hrow.2.1]
    by_cases hp : thr < (minMaxLoc (rowScores d1 nc off)).1
    · simp only [hp, if_true, List.map_cons, ih, Candidate.noClass, hbox, hmask]
    · simp only [hp, if_false, ih]

/-- Candidate lists that differ in their classes only have the same
confidence vector, the same box vector and agree, class apart, at every
index. -/
theorem noClass_eq {c1 c2 : List Candidate}
    (h : c1.map Candidate.noClass = c2.map Candidate.noClass) :
    c1.map (·.confidence) = c2.map (·.confidence) ∧ c1.map (·.box) = c2.map (·.box) ∧
      ∀ idx, (candAt c1 idx).confidence = (candAt c2 idx).confidence ∧
        (candAt c1 idx).box = (candAt c2 idx).box ∧
        (candAt c1 idx).mask = (candAt c2 idx).mask := by
  refine ⟨?_, ?_, ?_⟩
  · have := congrArg (List.map Prod.fst) h
    simpa [List.map_map, Function.comp_def, Candidate.noClass] using this
  · have := congrArg (List.map fun (x : ℚ × Rect × List ℚ) => x.2.1) h
    simpa [List.map_map, Function.comp_def, Candidate.noClass] using this
  · intro idx
    have e1 := List.getD_map (l := c1) (d := (⟨0, 0, Rect_.zero, []⟩ : Candidate)) (n := idx)
      Candidate.noClass
    have e2 := List.getD_map (l := c2) (d := (⟨0, 0, Rect_.zero, []⟩ : Candidate)) (n := idx)
      Candidate.noClass
    rw [h] at e1
    have e3 := e1.symm.trans e2
    simp only [Candidate.noClass, Prod.mk.injEq] at e3
    exact e3

/-- The Segment result loop reads the class of a candidate only to copy it:
candidates that agree class apart give results that agree class apart, and
the loop throws for both or for neither. -/
theorem masks_results_noClass {Proto : Type} (pipeline : MaskPipeline Proto) (proto : Proto)
    (image_info : ImageInfo) (c1 c2 : List Candidate) (mt : ℚ)
    (h : ∀ idx, (candAt c1 idx).confidence = (candAt c2 idx).confidence ∧
        (candAt c1 idx).box = (candAt c2 idx).box ∧
        (candAt c1 idx).mask = (candAt c2 idx).mask) :
    ∀ l : List Nat,
      (masks_results pipeline proto image_info c1 mt l).map (List.map YoloResults.noClass) =
        (masks_results pipeline proto image_info c2 mt l).map (List.map YoloResults.noClass)
  | [] => rfl
  | idx :: rest => by
    have ih := masks_results_noClass pipeline proto image_info c1 c2 mt h rest
    obtain ⟨hc, hb, hm⟩ := h idx
    unfold masks_results
    simp only
    rw [hb, hm]
    cases _get_mask2 pipeline (candAt c2 idx).mask proto image_info
        (clipToImage image_info (candAt c2 idx).box) mt with
    | none => rfl
    | some mask =>
      simp only
      cases h1 : masks_results pipeline proto image_info c1 mt rest with
      | none =>
        rw [h1] at ih
        cases h2 : masks_results pipeline proto image_info c2 mt rest with
        | none => rfl
        | some o2 => rw [h2] at ih; simp at ih
      | some o1 =>
        rw [h1] at ih
        cases h2 : masks_results pipeline proto image_info c2 mt rest with
        | none => rw [h2] at ih; simp at ih
        | some o2 =>
          rw [h2] at ih
          simp only [Option.map_some', Option.some.injEq] at ih
          simp only [Option.map_some', List.map_cons, YoloResults.noClass, hc, ih]

/-- A computed overlap within the threshold bounds the exact intersection
over union of a well-formed pair by the threshold plus the rounding error. -/
theorem exactIoU_le_of_rectOverlap_le {a b : Rect} {iou : ℚ} (h : rectOverlap a b ≤ iou)
    (hw : wellFormedPair a b) : exactIoU a b ≤ iou + 1 / 2 ^ 22 := by
  obtain ⟨l, _⟩ := abs_le.mp
    (rectOverlap_near_exactIoU a b hw.1 hw.2.1 hw.2.2.1 hw.2.2.2.1 hw.2.2.2.2)
  linarith

/-- C5, the claim as stated fails: the two rows of `roundingTensor` have
different classes, both pass the confidence filter, the intersection over
union of their boxes is above the threshold 0.5, and both decoders return
both rows: the overlap that `NMSBoxes` computes in single precision is
exactly 0.5. -/
theorem class_agnostic_counterexample :
    exactIoU (detect_box (scale_boxes_spec unitGeometry) ⟨6000, 6000⟩ image6000
        roundingTensor.data 6)
      (detect_box (scale_boxes_spec unitGeometry) ⟨6000, 6000⟩ image6000 roundingTensor.data 0) =
        16779425 / 33558849 ∧
    (1 / 2 : ℚ) < 16779425 / 33558849 ∧
    rectOverlap (detect_box (scale_boxes_spec unitGeometry) ⟨6000, 6000⟩ image6000
        roundingTensor.data 6)
      (detect_box (scale_boxes_spec unitGeometry) ⟨6000, 6000⟩ image6000 roundingTensor.data 0) =
        1 / 2 ∧
    postprocess_detects (scale_boxes_spec unitGeometry) ⟨6000, 6000⟩ roundingTensor image6000 []
        2 (1 / 4) (1 / 2) =
      some [⟨0, 9 / 10, ⟨0, 0, 5793, 5793⟩, MaskMat.none, []⟩,
            ⟨1, 8 / 10, ⟨0, 0, 5525, 3037⟩, MaskMat.none, []⟩] ∧
    (postprocess_masks (scale_boxes_spec unitGeometry) ⟨6000, 6000⟩ constPipeline roundingTensor
        (some ()) image6000 [] 2 (1 / 4) (1 / 2) 0 (1 / 2)).map (List.map YoloResults.core) =
      some [(0, 9 / 10, ⟨0, 0, 5793, 5793⟩), (1, 8 / 10, ⟨0, 0, 5525, 3037⟩)] := by
  refine ⟨by decide!, by norm_num, by decide!, by decide!, by decide!⟩

/-- C5 as amended: NMS in the Detect and Segment decoders ignores class
ids. Two raw tensors that agree on the box values and on the maximum class
score of every row give Detect results with the same confidences and boxes
in the same order (and the call throws for both or for neither), whichever
class attains the maximum; so do the Segment results when both calls return,
and when the tensors also agree on the mask coefficients the Segment calls
throw for both or for neither and the results agree on confidence, box and
mask. In both decoders `NMSBoxes` selects the same candidate positions for
the two tensors. The candidates behind the returned results are pairwise within the
threshold for the overlap computed in single precision, whatever their
classes: two candidates whose computed overlap exceeds `iouThreshold` are
never both returned, and neither are two candidates with well-formed boxes
whose exact intersection over union exceeds `iouThreshold + 2 ^ (-22)`. -/
theorem nms_class_agnostic {Proto : Type} (scale_boxes : ScaleBoxes) (cvSize : Size)
    (pipeline : MaskPipeline Proto) (t1 t2 : Mat) (proto : Option Proto)
    (image_info : ImageInfo) (output : List YoloResults) (nc : Nat) (thr iou : ℚ) (mfn : Nat)
    (mt : ℚ) (hrows : t1.rows = t2.rows) :
    (agreeOnBoxAndScore t1.data t2.data nc (nc + 4) t1.rows →
      (postprocess_detects scale_boxes cvSize t1 image_info output nc thr iou).map
          (List.map fun d => (d.conf, d.bbox)) =
        (postprocess_detects scale_boxes cvSize t2 image_info output nc thr iou).map
          (List.map fun d => (d.conf, d.bbox))) ∧
    (agreeOnBoxAndScore t1.data t2.data nc (nc + 4 + mfn) t1.rows →
      ∀ out1 out2,
        postprocess_masks scale_boxes cvSize pipeline t1 proto image_info output nc thr iou mfn
          mt = some out1 →
        postprocess_masks scale_boxes cvSize pipeline t2 proto image_info output nc thr iou mfn
          mt = some out2 →
        out1.map (fun d => (d.conf, d.bbox)) = out2.map (fun d => (d.conf, d.bbox))) ∧
    (agreeOnBoxAndScore t1.data t2.data nc (nc + 4 + mfn) t1.rows →
      agreeOnMaskCoeffs t1.data t2.data nc mfn (nc + 4 + mfn) t1.rows →
      (postprocess_masks scale_boxes cvSize pipeline t1 proto image_info output nc thr iou mfn
          mt).map (List.map YoloResults.noClass) =
        (postprocess_masks scale_boxes cvSize pipeline t2 proto image_info output nc thr iou mfn
          mt).map (List.map YoloResults.noClass)) ∧
    (agreeOnBoxAndScore t1.data t2.data nc (nc + 4) t1.rows →
      NMSBoxes
          ((detect_rows scale_boxes cvSize image_info t1.data nc thr t1.rows 0).map (·.box))
          ((detect_rows scale_boxes cvSize image_info t1.data nc thr t1.rows 0).map
            (·.confidence)) thr iou =
        NMSBoxes
          ((detect_rows scale_boxes cvSize image_info t2.data nc thr t2.rows 0).map (·.box))
          ((detect_rows scale_boxes cvSize image_info t2.data nc thr t2.rows 0).map
            (·.confidence)) thr iou) ∧
    (agreeOnBoxAndScore t1.data t2.data nc (nc + 4 + mfn) t1.rows →
      NMSBoxes
          ((masks_rows scale_boxes cvSize image_info t1.data nc thr mfn t1.rows 0).map (·.box))
          ((masks_rows scale_boxes cvSize image_info t1.data nc thr mfn t1.rows 0).map
            (·.confidence)) thr iou =
        NMSBoxes
          ((masks_rows scale_boxes cvSize image_info t2.data nc thr mfn t2.rows 0).map (·.box))
          ((masks_rows scale_boxes cvSize image_info t2.data nc thr mfn t2.rows 0).map
            (·.confidence)) thr iou) ∧
    (∀ out, postprocess_detects scale_boxes cvSize t1 image_info output nc thr iou = some out →
      ∃ res : List Nat,
        out = res.map (detect_result image_info
          (detect_rows scale_boxes cvSize image_info t1.data nc thr t1.rows 0)) ∧
        res.Pairwise (fun i j =>
          rectOverlap
            (candAt (detect_rows scale_boxes cvSize image_info t1.data nc thr t1.rows 0) j).box
            (candAt (detect_rows scale_boxes cvSize image_info t1.data nc thr t1.rows 0) i).box
              ≤ iou ∧
          (wellFormedPair
            (candAt (detect_rows scale_boxes cvSize image_info t1.data nc thr t1.rows 0) j).box
            (candAt (detect_rows scale_boxes cvSize image_info t1.data nc thr t1.rows 0) i).box →
           exactIoU
            (candAt (detect_rows scale_boxes cvSize image_info t1.data nc thr t1.rows 0) j).box
            (candAt (detect_rows scale_boxes cvSize image_info t1.data nc thr t1.rows 0) i).box
              ≤ iou + 1 / 2 ^ 22))) ∧
    (∀ out, postprocess_masks scale_boxes cvSize pipeline t1 proto image_info output nc thr iou
        mfn mt = some out →
      ∃ res : List Nat,
        out.map (fun d => (d.conf, d.bbox)) = res.map (fun idx =>
          ((candAt (masks_rows scale_boxes cvSize image_info t1.data nc thr mfn t1.rows 0)
              idx).confidence,
           (clipToImage image_info
             (candAt (masks_rows scale_boxes cvSize image_info t1.data nc thr mfn t1.rows 0)
               idx).box).toF)) ∧
        res.Pairwise (fun i j =>
          rectOverlap
            (candAt (masks_rows scale_boxes cvSize image_info t1.data nc thr mfn t1.rows 0) j).box
            (candAt (masks_rows scale_boxes cvSize image_info t1.data nc thr mfn t1.rows 0) i).box
              ≤ iou ∧
          (wellFormedPair
            (candAt (masks_rows scale_boxes cvSize image_info t1.data nc thr mfn t1.rows 0) j).box
            (candAt (masks_rows scale_boxes cvSize image_info t1.data nc thr mfn t1.rows 0)
              i).box →
           exactIoU
            (candAt (masks_rows scale_boxes cvSize image_info t1.data nc thr mfn t1.rows 0) j).box
            (candAt (masks_rows scale_boxes cvSize image_info t1.data nc thr mfn t1.rows 0) i).box
              ≤ iou + 1 / 2 ^ 22))) := by
  refine ⟨?_, ?_, ?_, ?_, ?_, ?_, ?_⟩
  rotate_left 3
  · intro hag
    have hc := detect_rows_agree scale_boxes cvSize image_info t1.data t2.data nc thr t1.rows 0
      (fun i hi => by simpa using hag i hi)
    obtain ⟨hconf, hbox, _⟩ := confBox_eq hc
    rw [← hrows, ← hconf, ← hbox]
  · intro hag
    have hc := masks_rows_agree scale_boxes cvSize image_info t1.data t2.data nc thr mfn t1.rows 0
      (fun i hi => by simpa using hag i hi)
    obtain ⟨hconf, hbox, _⟩ := confBox_eq hc
    rw [← hrows, ← hconf, ← hbox]
  rotate_left 2
  · intro hag
    have hc := detect_rows_agree scale_boxes cvSize image_info t1.data t2.data nc thr t1.rows 0
      (fun i hi => by simpa using hag i hi)
    obtain ⟨hconf, hbox, hat⟩ := confBox_eq hc
    unfold postprocess_detects
    simp only
    rw [← hrows, ← hconf, ← hbox]
    cases NMSBoxes (List.map (fun x => x.box)
        (detect_rows scale_boxes cvSize image_info t1.data nc thr t1.rows 0))
      (List.map (fun x => x.confidence)
        (detect_rows scale_boxes cvSize image_info t1.data nc thr t1.rows 0)) thr iou with
    | none => rfl
    | some res =>
      simp only [Option.map_some', List.map_map, Option.some.injEq]
      apply List.map_congr_left
      intro idx _
      simp [detect_result, (hat idx).1, (hat idx).2]
  · intro hag out1 out2 h1 h2
    have hc := masks_rows_agree scale_boxes cvSize image_info t1.data t2.data nc thr mfn t1.rows 0
      (fun i hi => by simpa using hag i hi)
    obtain ⟨hconf, hbox, hat⟩ := confBox_eq hc
    unfold postprocess_masks at h1 h2
    simp only at h1 h2
    rw [← hrows, ← hconf, ← hbox] at h2
    cases hn : NMSBoxes (List.map (fun x => x.box)
        (masks_rows scale_boxes cvSize image_info t1.data nc thr mfn t1.rows 0))
      (List.map (fun x => x.confidence)
        (masks_rows scale_boxes cvSize image_info t1.data nc thr mfn t1.rows 0)) thr iou with
    | none => simp [hn] at h1
    | some res =>
      rw [hn] at h1 h2
      cases proto with
      | none => simp at h1
      | some pr =>
        simp only at h1 h2
        rw [masks_results_map pipeline pr image_info _ mt res out1 h1,
          masks_results_map pipeline pr image_info _ mt res out2 h2]
        apply List.map_congr_left
        intro idx _
        rw [(hat idx).1, (hat idx).2]
  · intro hag hmc
    have hc := masks_rows_agree_noClass scale_boxes cvSize image_info t1.data t2.data nc thr mfn
      t1.rows 0
      (fun i hi => by
        obtain ⟨hb, hs⟩ := hag i hi
        have hm := hmc i hi
        simp only [Nat.zero_add]
        exact ⟨hb, hs, hm⟩)
    obtain ⟨hconf, hbox, hat⟩ := noClass_eq hc
    unfold postprocess_masks
    simp only
    rw [← hrows, ← hconf, ← hbox]
    cases NMSBoxes (List.map (fun x => x.box)
        (masks_rows scale_boxes cvSize image_info t1.data nc thr mfn t1.rows 0))
      (List.map (fun x => x.confidence)
        (masks_rows scale_boxes cvSize image_info t1.data nc thr mfn t1.rows 0)) thr iou with
    | none => rfl
    | some res =>
      cases proto with
      | none => rfl
      | some pr =>
        simp only
        exact masks_results_noClass pipeline pr image_info _ _ mt hat res
  · intro out h
    unfold postprocess_detects at h
    simp only at h
    split at h
    · simp at h
    · rename_i res hres
      simp only [Option.some.injEq] at h
      refine ⟨res, h.symm, ?_⟩
      have hp := NMSBoxes_pairwise hres
      simp only [boxes_getD] at hp
      exact hp.imp fun hij => ⟨hij, exactIoU_le_of_rectOverlap_le hij⟩
  · intro out h
    unfold postprocess_masks at h
    simp only at h
    split at h
    · simp at h
    · rename_i res hres
      split at h
      · simp at h
      · rename_i pr
        refine ⟨res, masks_results_map pipeline pr image_info _ mt res out h, ?_⟩
        have hp := NMSBoxes_pairwise hres
        simp only [boxes_getD] at hp
        exact hp.imp fun hij => ⟨hij, exactIoU_le_of_rectOverlap_le hij⟩

/-- C5, amended, at two concrete tensors that differ only in the arg-max
classes: the second row overlaps the first by 0.8 and is suppressed in both,
although it has another class. -/
theorem nms_class_agnostic_witness :
    (classTensorA.rows = classTensorB.rows ∧
      agreeOnBoxAndScore classTensorA.data classTensorB.data 2 (2 + 4) classTensorA.rows) ∧
    postprocess_detects (scale_boxes_spec unitGeometry) ⟨640, 640⟩ classTensorA image640 [] 2
        (1 / 4) (1 / 2) = some [⟨0, 9 / 10, ⟨0, 0, 20, 20⟩, MaskMat.none, []⟩] ∧
    postprocess_detects (scale_boxes_spec unitGeometry) ⟨640, 640⟩ classTensorB image640 [] 2
        (1 / 4) (1 / 2) = some [⟨1, 9 / 10, ⟨0, 0, 20, 20⟩, MaskMat.none, []⟩] ∧
    (postprocess_detects (scale_boxes_spec unitGeometry) ⟨640, 640⟩ classTensorA image640 [] 2
        (1 / 4) (1 / 2)).map (List.map fun d => (d.conf, d.bbox)) =
      (postprocess_detects (scale_boxes_spec unitGeometry) ⟨640, 640⟩ classTensorB image640 [] 2
        (1 / 4) (1 / 2)).map (List.map fun d => (d.conf, d.bbox)) :=
  ⟨⟨rfl, by decide!⟩, by decide!, by decide!,
   (nms_class_agnostic (scale_boxes_spec unitGeometry) ⟨640, 640⟩ constPipeline classTensorA
      classTensorB (some ()) image640 [] 2 (1 / 4) (1 / 2) 0 (1 / 2) rfl).1 (by decide!)⟩

/-! ## C6: NMS idempotence -/

/-- When every score passes the filter, the pairs carry the scores in order. -/
theorem scoreIndexPairs_fst {thr : ℚ} : ∀ (l : List ℚ) (k : Nat), (∀ s ∈ l, thr < s) →
    (scoreIndexPairs thr l k).map Prod.fst = l
  | [], _, _ => rfl
  | s :: rest, k, h => by
    unfold scoreIndexPairs
    rw [if_pos (h s (List.mem_cons_self _ _)), List.map_cons,
      scoreIndexPairs_fst rest (k + 1) fun x hx => h x (List.mem_cons_of_mem _ hx)]

/-- When every score passes the filter and every candidate is within the
overlap threshold of all earlier ones, the outer loop selects every index. -/
theorem NMSFast_keeps_all (bboxes : List Rect) (thr iou : ℚ) : ∀ (l : List ℚ) (k : Nat),
    (∀ s ∈ l, thr < s) →
    (∀ i, k ≤ i → i < k + l.length → ∀ j < i,
      rectOverlap (bboxes.getD i Rect_.zero) (bboxes.getD j Rect_.zero) ≤ iou) →
    NMSFast_ bboxes iou (scoreIndexPairs thr l k) (List.range k) = List.range (k + l.length)
  | [], k, _, _ => by simp [scoreIndexPairs, NMSFast_]
  | s :: rest, k, hs, hov => by
    have hkeep : nmsKeep bboxes iou k (List.range k) = true := by
      simp only [nmsKeep, List.all_eq_true, decide_eq_true_eq, List.mem_range]
      intro j hj
      exact hov k (le_refl k) (by simp) j hj
    unfold scoreIndexPairs
    rw [if_pos (hs s (List.mem_cons_self _ _))]
    unfold NMSFast_
    rw [if_pos hkeep, ← List.range_succ]
    rw [NMSFast_keeps_all bboxes thr iou rest (k + 1)
      (fun x hx => hs x (List.mem_cons_of_mem _ hx))
      (fun i hi1 hi2 j hj => hov i (by omega) (by simp only [List.length_cons]; omega) j hj)]
    congr 1
    simp only [List.length_cons]
    omega

/-- C6: running the NMS step of the Detect and Segment decoders on the
candidates it selected (their boxes and confidences, in selection order,
same thresholds) selects every one of them again, in the same order. -/
theorem nms_idempotent (boxes : List Rect) (scores : List ℚ) (thr iou : ℚ) (res : List Nat)
    (h : NMSBoxes boxes scores thr iou = some res) :
    NMSBoxes (res.map (boxes.getD · Rect_.zero)) (res.map (scores.getD · 0)) thr iou =
      some (List.range res.length) := by
  have hpw := NMSBoxes_pairwise h
  unfold NMSBoxes at h
  split at h
  swap
  · simp at h
  rename_i hcond
  simp only [Option.some.injEq] at h
  obtain ⟨l, hl, hsub⟩ := NMSFast_sublist boxes iou (GetMaxScoreIndex scores thr) []
  rw [h, List.nil_append] at hl
  subst hl
  -- the selected scores pass the filter and are sorted in descending order
  have hscore : ∀ p ∈ GetMaxScoreIndex scores thr, scores.getD p.2 0 = p.1 := by
    intro p hp
    simp [List.getD_eq_getElem?_getD, (GetMaxScoreIndex_mem hp).1]
  have hmapfst : (GetMaxScoreIndex scores thr).map Prod.fst =
      ((GetMaxScoreIndex scores thr).map Prod.snd).map (scores.getD · 0) := by
    rw [List.map_map]
    apply List.map_congr_left
    intro p hp
    exact (hscore p hp).symm
  have hsorted : ((GetMaxScoreIndex scores thr).map Prod.fst).Pairwise (fun a b => b ≤ a) := by
    rw [List.pairwise_map]
    exact List.sorted_insertionSort scoreDescend _
  have hsel_sorted : (res.map (scores.getD · 0)).Pairwise (fun a b => b ≤ a) := by
    rw [hmapfst] at hsorted
    exact hsorted.sublist (hsub.map _)
  have hsel_pass : ∀ s ∈ res.map (scores.getD · 0), thr < s := by
    intro s hs
    obtain ⟨idx, hidx, rfl⟩ := List.mem_map.mp hs
    obtain ⟨p, hp, rfl⟩ := List.mem_map.mp (hsub.subset hidx)
    rw [hscore p hp]
    exact (GetMaxScoreIndex_mem hp).2
  -- hence the second sort changes nothing
  have hsorted2 : (scoreIndexPairs thr (res.map (scores.getD · 0)) 0).Sorted scoreDescend := by
    have := hsel_sorted
    rw [← scoreIndexPairs_fst (res.map (scores.getD · 0)) 0 hsel_pass, List.pairwise_map] at this
    exact this
  unfold NMSBoxes
  rw [if_pos ⟨by simp, hcond.2⟩]
  unfold GetMaxScoreIndex
  rw [hsorted2.insertionSort_eq]
  have hall := NMSFast_keeps_all (res.map (boxes.getD · Rect_.zero)) thr iou
    (res.map (scores.getD · 0)) 0 hsel_pass (by
      intro i _ hi j hj
      simp only [List.length_map, Nat.zero_add] at hi
      have hj2 : j < res.length := lt_trans hj hi
      rw [List.getD_eq_getElem _ _ (by simpa using hi), List.getD_eq_getElem _ _ (by simpa using hj2)]
      simp only [List.getElem_map]
      exact (List.pairwise_iff_getElem.mp hpw) j i hj2 hi hj)
  simpa using hall


/-- C6 at concrete candidates: of three boxes the second run keeps the two
the first run selected. -/
theorem nms_idempotent_witness :
    NMSBoxes [⟨0, 0, 20, 20⟩, ⟨0, 0, 20, 16⟩, ⟨100, 100, 10, 10⟩] [8 / 10, 9 / 10, 7 / 10]
        (1 / 4) (1 / 2) = some [1, 2] ∧
    NMSBoxes
        (([1, 2] : List Nat).map
          (([⟨0, 0, 20, 20⟩, ⟨0, 0, 20, 16⟩, ⟨100, 100, 10, 10⟩] : List Rect).getD · Rect_.zero))
        (([1, 2] : List Nat).map (([8 / 10, 9 / 10, 7 / 10] : List ℚ).getD · 0))
        (1 / 4) (1 / 2) = some (List.range ([1, 2] : List Nat).length) :=
  ⟨by decide!,
   nms_idempotent [⟨0, 0, 20, 20⟩, ⟨0, 0, 20, 16⟩, ⟨100, 100, 10, 10⟩] [8 / 10, 9 / 10, 7 / 10]
    (1 / 4) (1 / 2) [1, 2] (by decide!)⟩

/-! ## C7 and C8: the Classify decoder -/

/-- The Classify loop appends, for the remaining columns in ascending order,
one result per score above one half. -/
theorem classify_loop_eq (data : List ℚ) : ∀ (n i : Nat) (acc : List YoloResults),
    classify_loop data n i acc = acc ++ (List.range' i n).filterMap fun j =>
      if (1 / 2 : ℚ) < data.getD j 0 then
        some { YoloResults.init with class_idx := (j : Int), conf := data.getD j 0 }
      else none
  | 0, i, acc => by simp [classify_loop]
  | n + 1, i, acc => by
    unfold classify_loop
    by_cases h : (1 / 2 : ℚ) < data.getD i 0
    · simp only [h, if_true]
      rw [classify_loop_eq data n (i + 1), List.range'_succ, List.filterMap_cons]
      simp only [h, if_true, List.append_assoc, List.singleton_append]
    · simp only [h, if_false]
      rw [classify_loop_eq data n (i + 1), List.range'_succ, List.filterMap_cons]
      simp only [h, if_false]

/-- C7: on the Classify path of `predict_once` the confidence threshold of
the caller has no effect, the literal `0.5` decides. With caller threshold
0.25 the score 0.3 yields no result, and with caller threshold 0.7 the
score 0.6 yields a result; no two caller thresholds give different
results. -/
theorem classify_ignores_caller_threshold :
    predict_once_classify ⟨1, 1, [3 / 10]⟩ (1 / 4) (1 / 2) (1 / 2) = some [] ∧
    classify_expected (1 / 4) [3 / 10] 1 = [⟨0, 3 / 10, Rect_.zero, MaskMat.none, []⟩] ∧
    predict_once_classify ⟨1, 1, [6 / 10]⟩ (7 / 10) (1 / 2) (1 / 2) =
      some [⟨0, 6 / 10, Rect_.zero, MaskMat.none, []⟩] ∧
    classify_expected (7 / 10) [6 / 10] 1 = [] ∧
    ∀ (output0 : Mat) (conf conf2 iou mask_threshold : ℚ),
      predict_once_classify output0 conf iou mask_threshold =
        predict_once_classify output0 conf2 iou mask_threshold := by
  refine ⟨by decide!, by decide!, by decide!, by decide!, ?_⟩
  intro output0 conf conf2 iou mask_threshold
  rfl

/-- C8: for a single-row score matrix `postprocess_classify` discards the
incoming results and returns, in ascending class-index order, exactly one
result per index whose score is strictly greater than 0.5, carrying that
index and score; the scores `[0.1, 0.6, 0.3]` yield exactly one result, with
class 1 and confidence 0.6. -/
theorem classify_threshold_half (outputTensor : Mat) (results : List YoloResults)
    (hrow : outputTensor.rows = 1) :
    postprocess_classify outputTensor results =
      some (classify_expected (1 / 2) outputTensor.data outputTensor.cols) ∧
    postprocess_classify ⟨1, 3, [1 / 10, 6 / 10, 3 / 10]⟩ results =
      some [⟨1, 6 / 10, Rect_.zero, MaskMat.none, []⟩] := by
  constructor
  · unfold postprocess_classify classify_expected
    simp only [hrow, if_true]
    rw [classify_loop_eq, List.nil_append, List.range_eq_range']
  · unfold postprocess_classify
    decide!

/-- C8 at a concrete input with stale incoming results: they are discarded
and the two scores above 0.5 are reported in index order. -/
theorem classify_threshold_half_witness :
    (⟨1, 4, [7 / 10, 1 / 2, 2 / 10, 51 / 100]⟩ : Mat).rows = 1 ∧
    postprocess_classify ⟨1, 4, [7 / 10, 1 / 2, 2 / 10, 51 / 100]⟩ [YoloResults.init] =
      some [⟨0, 7 / 10, Rect_.zero, MaskMat.none, []⟩,
            ⟨3, 51 / 100, Rect_.zero, MaskMat.none, []⟩] :=
  ⟨rfl, (classify_threshold_half ⟨1, 4, [7 / 10, 1 / 2, 2 / 10, 51 / 100]⟩ [YoloResults.init]
    rfl).1.trans (by decide!)⟩

/-! ## C9: mask dimensions -/

/-- A mask returned by `_get_mask2` has the dimensions of the box it was
cropped to. -/
theorem get_mask2_dims {Proto : Type} {pipeline : MaskPipeline Proto} {mf : List ℚ}
    {proto : Proto} {image_info : ImageInfo} {bound : Rect} {mt : ℚ} {m : MaskMat}
    (h : _get_mask2 pipeline mf proto image_info bound mt = some m) :
    m.cols = bound.width ∧ m.rows = bound.height ∧ m.data.length = bound.height.toNat ∧
      ∀ row ∈ m.data, row.length = bound.width.toNat := by
  unfold _get_mask2 at h
  simp only at h
  split at h
  · simp at h
  · split at h
    · simp only [Option.some.injEq] at h
      subst h
      refine ⟨rfl, rfl, by simp, ?_⟩
      intro row hrow
      simp only [List.mem_map, List.mem_range] at hrow
      obtain ⟨r, _, rfl⟩ := hrow
      simp
    · simp at h

/-- The crop of `_get_mask2` cannot fail on a box clipped to the image. -/
theorem roiInside_clipToImage (image_info : ImageInfo) (box : Rect)
    (hW : 0 ≤ image_info.raw_size.width) (hH : 0 ≤ image_info.raw_size.height) :
    roiInside image_info.raw_size.height image_info.raw_size.width
      (clipToImage image_info box) = true := by
  obtain ⟨h1, h2, h3, h4, h5, h6⟩ :=
    Rect_.inter_image_bounds box image_info.raw_size.width image_info.raw_size.height hW hH
  simp only [roiInside, decide_eq_true_eq, clipToImage]
  exact ⟨h1, h3, h5, h2, h4, h6⟩

/-- C9: the binary mask attached to every Detection returned by
`postprocess_masks` has exactly the dimensions of the clipped box of that
Detection: as many columns as the box is wide and as many rows as it is
high, and the mask data has that shape. On a clipped box the crop itself
never throws once the numeric pipeline has produced its map. -/
theorem mask_has_box_dimensions {Proto : Type} (scale_boxes : ScaleBoxes) (cvSize : Size)
    (pipeline : MaskPipeline Proto) (output0 : Mat) (proto : Option Proto)
    (image_info : ImageInfo) (output : List YoloResults) (nc : Nat) (thr iou : ℚ) (mfn : Nat)
    (mt : ℚ) :
    (∀ out, postprocess_masks scale_boxes cvSize pipeline output0 proto image_info output nc thr
        iou mfn mt = some out →
      ∀ d ∈ out, (d.mask.cols : ℚ) = d.bbox.width ∧ (d.mask.rows : ℚ) = d.bbox.height ∧
        d.mask.data.length = d.mask.rows.toNat ∧
        ∀ row ∈ d.mask.data, row.length = d.mask.cols.toNat) ∧
    (0 ≤ image_info.raw_size.width → 0 ≤ image_info.raw_size.height →
      ∀ (pr : Proto) (mf : List ℚ) (box : Rect),
        (pipeline pr mf (clipToImage image_info box)).isSome = true →
        (_get_mask2 pipeline mf pr image_info (clipToImage image_info box) mt).isSome = true) := by
  constructor
  · intro out h d hd
    obtain ⟨cands, res, idx, pr, _, _, _, _, _, _, hbox, hmask⟩ := postprocess_masks_mem h hd
    obtain ⟨h1, h2, h3, h4⟩ := get_mask2_dims hmask
    rw [hbox, h1, h2]
    exact ⟨rfl, rfl, h3, h4⟩
  · intro hW hH pr mf box hp
    unfold _get_mask2
    simp only [roiInside_clipToImage image_info box hW hH, if_true]
    cases hq : pipeline pr mf (clipToImage image_info box) with
    | none => simp [hq] at hp
    | some prob => simp

/-- C9 at a concrete Segment input: a box of size 3 x 2 at the image corner
gets a mask of 2 rows and 3 columns. -/
theorem mask_has_box_dimensions_witness :
    (postprocess_masks (scale_boxes_spec unitGeometry) ⟨640, 640⟩ constPipeline
        ⟨1, 6, [640, 640, 6, 4, 9 / 10, 1]⟩ (some ()) image640 [] 1 (1 / 2) (1 / 2) 1 (1 / 2)) =
      some [⟨0, 9 / 10, ⟨637, 638, 3, 2⟩, ⟨2, 3, [[true, true, true], [true, true, true]]⟩, []⟩] ∧
    ∀ d ∈ [(⟨0, 9 / 10, ⟨637, 638, 3, 2⟩, ⟨2, 3, [[true, true, true], [true, true, true]]⟩, []⟩ :
        YoloResults)],
      (d.mask.cols : ℚ) = d.bbox.width ∧ (d.mask.rows : ℚ) = d.bbox.height ∧
        d.mask.data.length = d.mask.rows.toNat ∧
        ∀ row ∈ d.mask.data, row.length = d.mask.cols.toNat :=
  ⟨by decide!,
   (mask_has_box_dimensions (scale_boxes_spec unitGeometry) ⟨640, 640⟩ constPipeline
      ⟨1, 6, [640, 640, 6, 4, 9 / 10, 1]⟩ (some ()) image640 [] 1 (1 / 2) (1 / 2) 1 (1 / 2)).1 _
      (by decide!)⟩

/-! ## C10: failure of the metadata resolver -/

/-- The stride stage does not throw on parseable values. -/
theorem loadStride_ok (K : OnnxInitializers) (P : MetaParsers) (md : Metadata)
    (self : AutoBackendOnnx)
    (h : ∀ v, md MetadataConstants.STRIDE = some v → (P.stoi v).isSome = true) :
    ∃ s, loadStride K P md self = Except.ok s := by
  unfold loadStride
  cases hk : md MetadataConstants.STRIDE with
  | none => exact ⟨_, rfl⟩
  | some v =>
    obtain ⟨n, hn⟩ := Option.isSome_iff_exists.mp (h v hk)
    simp only [hn]
    split <;> exact ⟨_, rfl⟩

/-- The names stage does not throw on parseable values. -/
theorem loadNames_ok (P : MetaParsers) (md : Metadata) (self : AutoBackendOnnx)
    (h : ∀ v, md MetadataConstants.NAMES = some v → (P.parseNames v).isSome = true) :
    ∃ s, loadNames P md self = Except.ok s := by
  unfold loadNames
  cases hk : md MetadataConstants.NAMES with
  | none => exact ⟨_, rfl⟩
  | some v =>
    obtain ⟨n, hn⟩ := Option.isSome_iff_exists.mp (h v hk)
    simp only [hn]
    split <;> exact ⟨_, rfl⟩

/-- The task stage throws exactly when the key is absent. -/
theorem loadTask_raised (md : Metadata) (self : AutoBackendOnnx) :
    raised (loadTask md self) = true ↔ md MetadataConstants.TASK = none := by
  unfold loadTask
  cases hk : md MetadataConstants.TASK with
  | none => simp [raised]
  | some v =>
    simp only
    split <;> simp [raised]

/-- C10: when every present value is parseable, `loadMetaData` throws if and
only if the `imgsz` key or the `task` key is absent; with both present it
completes, whether or not `stride` and `names` are present. -/
theorem loadMetaData_fails_iff (K : OnnxInitializers) (P : MetaParsers) (md : Metadata)
    (self : AutoBackendOnnx) (hparse : presentValuesParse P md) :
    (raised (loadMetaData K P md self) = true ↔
      (md MetadataConstants.IMGSZ = none ∨ md MetadataConstants.TASK = none)) ∧
    (md MetadataConstants.IMGSZ ≠ none → md MetadataConstants.TASK ≠ none →
      raised (loadMetaData K P md self) = false) := by
  have main : raised (loadMetaData K P md self) = true ↔
      (md MetadataConstants.IMGSZ = none ∨ md MetadataConstants.TASK = none) := by
    unfold loadMetaData
    cases hk : md MetadataConstants.IMGSZ with
    | none => simp [loadImgsz, hk, raised]
    | some v =>
      obtain ⟨imgsz, hi⟩ := Option.isSome_iff_exists.mp (hparse.1 v hk)
      obtain ⟨s2, h2⟩ := loadStride_ok K P md { self with imgsz_ := imgsz } hparse.2.1
      obtain ⟨s3, h3⟩ := loadNames_ok P md s2 hparse.2.2
      simp only [loadImgsz, hk, hi, h2, h3, loadTask_raised, false_or, reduceCtorEq]
  refine ⟨main, ?_⟩
  intro h1 h2
  cases hr : raised (loadMetaData K P md self) with
  | false => rfl
  | true =>
    rcases main.mp hr with h | h
    · exact absurd h h1
    · exact absurd h h2

/-- C10 at a concrete mapping with `imgsz` and `task` only: the call
completes although `stride` and `names` are absent. -/
theorem loadMetaData_fails_iff_witness :
    presentValuesParse sampleParsers sampleMetadata ∧
    sampleMetadata MetadataConstants.STRIDE = none ∧
    sampleMetadata MetadataConstants.NAMES = none ∧
    raised (loadMetaData sampleInitializers sampleParsers sampleMetadata sampleBackend) = false :=
  ⟨⟨fun _ _ => rfl, fun _ _ => rfl, fun _ _ => rfl⟩, by decide, by decide,
   (loadMetaData_fails_iff sampleInitializers sampleParsers sampleMetadata sampleBackend
      ⟨fun _ _ => rfl, fun _ _ => rfl, fun _ _ => rfl⟩).2 (by decide) (by decide)⟩

/-! ## C11: class count after metadata resolution -/

/-- The stride stage leaves the class count and the names alone. -/
theorem loadStride_fields {K : OnnxInitializers} {P : MetaParsers} {md : Metadata}
    {s s2 : AutoBackendOnnx} (h : loadStride K P md s = Except.ok s2) :
    s2.nc_ = s.nc_ ∧ s2.names_ = s.names_ := by
  unfold loadStride at h
  split at h
  · split at h
    · split at h <;> (cases h; exact ⟨rfl, rfl⟩)
    · cases h
  · cases h
    exact ⟨rfl, rfl⟩

/-- The shape stage leaves the class count and the names alone. -/
theorem loadShapes_fields (s : AutoBackendOnnx) :
    (loadShapes s).nc_ = s.nc_ ∧ (loadShapes s).names_ = s.names_ := by
  unfold loadShapes
  simp only
  split <;> split <;> exact ⟨rfl, rfl⟩

/-- The task stage leaves the class count and the names alone. -/
theorem loadTask_fields {md : Metadata} {s s2 : AutoBackendOnnx}
    (h : loadTask md s = Except.ok s2) : s2.nc_ = s.nc_ ∧ s2.names_ = s.names_ := by
  unfold loadTask at h
  split at h
  · split at h <;> (cases h; exact ⟨rfl, rfl⟩)
  · cases h

/-- C11, the claim as stated fails: with all four keys present and a `names`
value that parses to the empty mapping, a backend that starts uninitialised
(sentinel -1) ends with class count -1 and 0 names. -/
theorem class_count_counterexample :
    presentValuesParse emptyNamesParsers fullMetadata ∧
    sampleBackend.nc_ = sampleInitializers.UNINITIALIZED_NC ∧ sampleBackend.names_ = [] ∧
    countAndNames (loadMetaData sampleInitializers emptyNamesParsers fullMetadata sampleBackend) =
      some (-1, 0) :=
  ⟨⟨fun _ _ => rfl, fun _ _ => rfl, fun _ _ => rfl⟩, rfl, rfl, by decide⟩

/-- C11 as amended: for a metadata mapping with parseable `imgsz`, `stride`,
`names` and `task` and a backend whose class count and names the caller did
not supply, `loadMetaData` completes with the parsed names, and the class
count equals their number when the names are not empty; when `names` parses
to the empty mapping the class count stays at the uninitialised sentinel. -/
theorem class_count_from_names (K : OnnxInitializers) (P : MetaParsers) (md : Metadata)
    (self : AutoBackendOnnx) (vi vs vn vt : String) (hparse : presentValuesParse P md)
    (hI : md MetadataConstants.IMGSZ = some vi) (_hS : md MetadataConstants.STRIDE = some vs)
    (hN : md MetadataConstants.NAMES = some vn) (hT : md MetadataConstants.TASK = some vt)
    (hnc : self.nc_ = K.UNINITIALIZED_NC) (hnames : self.names_ = []) :
    ∃ (s : AutoBackendOnnx) (names : List (Int × String)),
      loadMetaData K P md self = Except.ok s ∧ P.parseNames vn = some names ∧
      s.names_ = names ∧
      (names ≠ [] → s.nc_ = (s.names_.length : Int)) ∧
      (names = [] → s.nc_ = K.UNINITIALIZED_NC) := by
  obtain ⟨imgsz, hi⟩ := Option.isSome_iff_exists.mp (hparse.1 vi hI)
  obtain ⟨names, hn⟩ := Option.isSome_iff_exists.mp (hparse.2.2 vn hN)
  obtain ⟨s2, h2⟩ := loadStride_ok K P md { self with imgsz_ := imgsz } hparse.2.1
  obtain ⟨hnc2, hnames2⟩ := loadStride_fields h2
  have hempty : s2.names_.isEmpty = true := by
    rw [hnames2]
    simp [hnames]
  have h3 : loadNames P md s2 = Except.ok { s2 with names_ := names } := by
    simp [loadNames, hN, hn, hempty]
  have hshape := loadShapes_fields (loadNc K { s2 with names_ := names })
  have h4 : ∃ s, loadTask md (loadShapes (loadNc K { s2 with names_ := names })) = Except.ok s := by
    unfold loadTask
    rw [hT]
    simp only
    split <;> exact ⟨_, rfl⟩
  obtain ⟨s, hs⟩ := h4
  obtain ⟨hnc4, hnames4⟩ := loadTask_fields hs
  refine ⟨s, names, ?_, hn, ?_, ?_, ?_⟩
  · simp only [loadMetaData, loadImgsz, hI, hi, h2, h3, hs]
  · rw [hnames4, hshape.2]
    unfold loadNc
    split <;> rfl
  · intro hne
    rw [hnc4, hnames4, hshape.1, hshape.2]
    have hnc3 : s2.nc_ = K.UNINITIALIZED_NC := hnc2.trans hnc
    have hne2 : names.isEmpty = false := by
      cases names with
      | nil => exact absurd rfl hne
      | cons a l => rfl
    simp [loadNc, hnc3, hne2]
  · intro he
    subst he
    rw [hnc4, hshape.1]
    have hnc3 : s2.nc_ = K.UNINITIALIZED_NC := hnc2.trans hnc
    simp [loadNc, hnc3]

/-- C11, amended, at a concrete mapping with one name. -/
theorem class_count_from_names_witness :
    (presentValuesParse sampleParsers fullMetadata ∧
      sampleBackend.nc_ = sampleInitializers.UNINITIALIZED_NC ∧ sampleBackend.names_ = []) ∧
    ∃ (s : AutoBackendOnnx) (names : List (Int × String)),
      loadMetaData sampleInitializers sampleParsers fullMetadata sampleBackend = Except.ok s ∧
      sampleParsers.parseNames sampleNamesValue = some names ∧
      s.names_ = names ∧
      (names ≠ [] → s.nc_ = (s.names_.length : Int)) ∧
      (names = [] → s.nc_ = sampleInitializers.UNINITIALIZED_NC) :=
  ⟨⟨⟨fun _ _ => rfl, fun _ _ => rfl, fun _ _ => rfl⟩, rfl, rfl⟩,
   class_count_from_names sampleInitializers sampleParsers fullMetadata sampleBackend
    sampleImgszValue sampleStrideValue sampleNamesValue sampleTaskValue
    ⟨fun _ _ => rfl, fun _ _ => rfl, fun _ _ => rfl⟩ (by decide) (by decide) (by decide)
    (by decide) rfl rfl⟩

/-! ## C12: channel check of the entry point -/

/-- The path overload throws the channel message on a decoded image whose
channel count differs from `getCh()`. -/
theorem predict_once_path_mismatch (F : FileEnv) (E : Collaborators) (T : YoloTasks)
    (self : AutoBackendOnnx) (imagePath : String) (conf iou mask_threshold : ℚ)
    (conversionCode : Int) (hfile : F.fileExists imagePath = true)
    (himg : (F.imread imagePath).empty = false)
    (hch : self.ch_ ≠ ((F.imread imagePath).channels : Int)) :
    predict_once_path F E T self imagePath conf iou mask_threshold conversionCode =
      Except.error (channelMessage (F.imread imagePath).channels) := by
  simp [predict_once_path, hfile, himg, hch]

/-- C12: the channel check exists on the path overload only. For a 4-channel
image and a backend that expects 3 channels, `predict_once` by path throws
the channel message, while `predict_once` on the in-memory image runs
preprocessing, inference and decoding and returns a result. -/
theorem channel_check_only_on_path :
    (bgraImage.channels : Int) ≠ classifyBackend.ch_ ∧
    raised (predict_once_path sampleFiles sampleCollaborators sampleTasks classifyBackend
      emptyString (1 / 4) (1 / 2) (1 / 2) (-1)) = true ∧
    predict_once_path sampleFiles sampleCollaborators sampleTasks classifyBackend
      emptyString (1 / 4) (1 / 2) (1 / 2) (-1) = Except.error (channelMessage 4) ∧
    returned (predict_once_mat sampleCollaborators sampleTasks classifyBackend bgraImage
      (1 / 4) (1 / 2) (1 / 2) (-1)) = some [⟨1, 6 / 10, Rect_.zero, MaskMat.none, []⟩] := by
  have hthrow := predict_once_path_mismatch sampleFiles sampleCollaborators sampleTasks
    classifyBackend emptyString (1 / 4) (1 / 2) (1 / 2) (-1) rfl rfl (by decide)
  refine ⟨by decide, ?_, hthrow, by decide!⟩
  rw [hthrow]
  rfl

/-! ## C13: boundary extractor -/

/-- Truncation leaves an integer unchanged. -/
theorem truncInt_intCast (n : Int) : truncInt (n : ℚ) = n := by
  unfold truncInt
  split <;> simp

/-- For a box with integer corner `(a, b)` the shift adds `(a, b)` to every
point. -/
theorem shiftContours_int (a b : Int) (w h : ℚ) (contours : List (List Point)) :
    shiftContours ⟨(a : ℚ), (b : ℚ), w, h⟩ contours =
      contours.map fun contour => contour.map fun p => ⟨p.x + a, p.y + b⟩ := by
  unfold shiftContours
  apply List.map_congr_left
  intro contour _
  apply List.map_congr_left
  intro p _
  have e1 : ((p.x : ℚ) + (a : ℚ)) = ((p.x + a : Int) : ℚ) := by push_cast; rfl
  have e2 : ((p.y : ℚ) + (b : ℚ)) = ((p.y + b : Int) : ℚ) := by push_cast; rfl
  simp only [e1, e2, truncInt_intCast]

/-- C13, the claim as stated fails: of two Detections, the first without
mask, `getBoundaryPoints` returns a single contour sequence, that of the
second; a lone Detection without mask yields no entry at all, not an empty
one. -/
theorem boundary_counterexample :
    [detNoMask, detWithMask].length = 2 ∧
    getBoundaryPoints sampleFindContours [detNoMask, detWithMask] =
      [[[⟨10, 20⟩, ⟨11, 20⟩]]] ∧
    (getBoundaryPoints sampleFindContours [detNoMask, detWithMask]).length = 1 ∧
    (getBoundaryPoints sampleFindContours [detNoMask]).length = 0 := by
  refine ⟨rfl, by decide!, by decide!, by decide!⟩

/-- C13 as amended: `getBoundaryPoints` returns, in input order, one contour
sequence per input Detection that has a non-empty mask, and nothing for a
Detection whose mask is absent, so the output is as long as the input only
when every mask is present; every traced point is moved by the top-left of
the box (the sum is truncated, which changes nothing for a box with integer
corner). -/
theorem boundary_points_per_mask (findContours : FindContours) (objs : List YoloResults) :
    getBoundaryPoints findContours objs =
      (objs.filter hasMask).map (fun obj => shiftContours obj.bbox (findContours obj.mask)) ∧
    (getBoundaryPoints findContours objs).length = (objs.filter hasMask).length ∧
    (getBoundaryPoints findContours objs).length ≤ objs.length ∧
    ((∀ obj ∈ objs, hasMask obj = true) →
      (getBoundaryPoints findContours objs).length = objs.length) ∧
    (∀ (a b : Int) (w h : ℚ) (contours : List (List Point)),
      shiftContours ⟨(a : ℚ), (b : ℚ), w, h⟩ contours =
        contours.map fun contour => contour.map fun p => ⟨p.x + a, p.y + b⟩) := by
  have main : getBoundaryPoints findContours objs =
      (objs.filter hasMask).map (fun obj => shiftContours obj.bbox (findContours obj.mask)) := by
    induction objs with
    | nil => rfl
    | cons obj rest ih =>
      unfold getBoundaryPoints
      by_cases hm : 0 < obj.mask.rows ∧ 0 < obj.mask.cols
      · have hf : hasMask obj = true := by simp [hasMask, hm]
        simp only [hm, and_self, if_true, List.filter_cons, hf, List.map_cons, ih]
      · have hf : hasMask obj = false := by simp [hasMask, hm]
        simp only [hm, if_false, List.filter_cons, hf, ih]
        simp
  refine ⟨main, ?_, ?_, ?_, shiftContours_int⟩
  · rw [main, List.length_map]
  · rw [main, List.length_map]
    exact List.length_filter_le _ _
  · intro hall
    rw [main, List.length_map, List.filter_eq_self.mpr hall]

/-- C13, amended, at two Detections with masks: two contour sequences. -/
theorem boundary_points_per_mask_witness :
    (∀ obj ∈ [detWithMask, detWithMask], hasMask obj = true) ∧
    (getBoundaryPoints sampleFindContours [detWithMask, detWithMask]).length =
      [detWithMask, detWithMask].length :=
  ⟨by decide!, (boundary_points_per_mask sampleFindContours [detWithMask, detWithMask]).2.2.2.1
    (by decide!)⟩

/-! ## C14: Segment and Detect box decode -/

/-- C14: on the row with box values `(100, 100, 50, 50)` and class 2 at
0.9, with scale factor 1, no padding and a 640 x 640 image, the Detect
decoder returns the box `(76, 76, 50, 50)` and the Segment decoder the box
`(75, 75, 50, 50)`: Detect keeps the float rectangle `(75.5, 75.5, 50.5, 50.5)`
and rounds it, Segment truncates it first. -/
theorem segment_box_differs_from_detect :
    (postprocess_detects (scale_boxes_spec unitGeometry) ⟨640, 640⟩ scenarioDetectTensor image640
        [] 3 (1 / 4) (1 / 2)).map (List.map YoloResults.core) =
      some [(2, 9 / 10, ⟨76, 76, 50, 50⟩)] ∧
    (postprocess_masks (scale_boxes_spec unitGeometry) ⟨640, 640⟩ constPipeline
        scenarioSegmentTensor (some ()) image640 [] 3 (1 / 4) (1 / 2) 1 (1 / 2)).map
        (List.map YoloResults.core) =
      some [(2, 9 / 10, ⟨75, 75, 50, 50⟩)] ∧
    detect_box (scale_boxes_spec unitGeometry) ⟨640, 640⟩ image640 scenarioDetectTensor.data 0 ≠
      masks_box (scale_boxes_spec unitGeometry) ⟨640, 640⟩ image640 scenarioSegmentTensor.data 0 := by
  refine ⟨by decide!, by decide!, by decide!⟩

/-! ## C15: the planar blob -/

end Yolov8
